import Mathlib

/-!
# Assembly-Language-Compiler: the code generator of `compiler/main.c`

A shallow embedding of the generator half of `main.c` (declaration processing,
instruction translation, label/jump resolution and the IF / ELSE / ENDIF
backpatching) together with theorems about it.  The virtual machine, `executor`,
is declared in `FunctionHeaders.h` but its body is not among the sources: its
definitions are modelled from the specification and say so.

Modelling conventions
* C strings are lists of characters without the terminating NUL (`CStr`).
* C `int`s are `Int`; the three table cursors, which only ever count up from 0,
  are `Nat`.
* The global tables, the resolution stack, the memory array and the token rows
  are arrays in C; here they are functions from the index to the element, the
  allocated size being a constant (`INTERMEDIATE_SLOTS`, ...).  Their contents
  before the first write are indeterminate in C (`malloc`, uninitialised
  locals): `main_init` takes them from an arbitrary state.
* A C execution that writes outside an allocated table or buffer, or reads a
  fresh local buffer that was never written, has no defined behaviour; the
  functions that can do so return `Option`, with `none` for exactly those
  executions.
* Characters are ASCII and the input lines hold no NUL.  `int` arithmetic is
  modelled without overflow: the only unbounded computation is the digit loop
  of an array index or size, which leaves the range of `int` (no defined
  behaviour in C) only for ten or more digits.
-/

namespace AsmCompiler

/-! ## Constants of `FunctionHeaders.h` -/

abbrev CStr := List Char

abbrev STACK_SIZE : Int := 100
abbrev MEMORY_SIZE : Int := 100
abbrev VARIABLE_MEMORY_START : Int := 8
abbrev CONST_VARIABLE_SIZE : Int := 0
abbrev VARIABLE_LENGTH : Nat := 5
abbrev LABEL_LENGTH : Nat := 5
abbrev WILDCARD_VALUE : Int := -2

abbrev OP_MOV_MEM_TO_REG : Int := 1
abbrev OP_MOV_REG_TO_MEM : Int := 2
abbrev OP_ADD : Int := 3
abbrev OP_SUB : Int := 4
abbrev OP_MUL : Int := 5
abbrev OP_JUMP : Int := 6
abbrev OP_IF : Int := 7
abbrev OP_EQ : Int := 8
abbrev OP_LT : Int := 9
abbrev OP_GT : Int := 10
abbrev OP_LTEQ : Int := 11
abbrev OP_GTEQ : Int := 12
abbrev OP_PRINT : Int := 13
abbrev OP_READ : Int := 14
abbrev OP_ENDIF : Int := 15
abbrev OP_END : Int := 16

/-- Number of `symbol_table` entries `main` allocates (`malloc (... * 25)`). -/
abbrev SYMBOL_SLOTS : Nat := 25
/-- Number of `intermediate_lang` entries `main` allocates (`malloc (... * 50)`). -/
abbrev INTERMEDIATE_SLOTS : Nat := 50
/-- Number of `blocks_table` entries `main` allocates; also the bound of the
explicit `blocks_index >= 50` test in `main`. -/
abbrev BLOCK_SLOTS : Nat := 50
/-- Rows of `char tokens[10][10]` in `main`. -/
abbrev TOKEN_ROWS : Nat := 10
/-- Bytes of the tokenizer buffer (`malloc (10 * sizeof (char))`). -/
abbrev TOKEN_BUFFER : Nat := 10

/-! ## Data structures of `FunctionHeaders.h` -/

/-- The struct `intermediate_lang`: one slot of the intermediate table. -/
structure intermediate_lang where
  instruc_no : Int
  opcode : Int
  parameters : Fin 5 → Int

/-- The struct `symbol_table`: one entry of the symbol table. -/
structure symbol_table where
  variable_name : CStr
  address : Int
  size : Int

/-- The struct `blocks_table`: one entry of the label table. -/
structure blocks_table where
  name : CStr
  instr_no : Int

/-- The globals of `main.c` (the three tables and their cursors) together with the
locals of `main` that the generator functions receive by pointer (`stack`, `top`,
`memory_array`, `memory_index`, `tokens`) and the line counter `instruction_no`
(its value between two iterations of the instruction loop). -/
structure State where
  intermediate_index : Nat
  intermediate_table : Nat → intermediate_lang
  symbol_index : Nat
  symbol_tab : Nat → symbol_table
  blocks_index : Nat
  block_tab : Nat → blocks_table
  stack : Nat → Int
  top : Int
  memory_array : Nat → Int
  memory_index : Int
  tokens : Nat → CStr
  instruction_no : Int

/-- The assignment `e.parameters[i] = v`. -/
def setParam (e : intermediate_lang) (i : Fin 5) (v : Int) : intermediate_lang :=
  { e with parameters := Function.update e.parameters i v }

/-- The assignment `intermediate_table[k] = e` (used field by field in C). -/
def setSlot (s : State) (k : Nat) (e : intermediate_lang) : State :=
  { s with intermediate_table := Function.update s.intermediate_table k e }

/-! ## The C library functions the generator uses -/

/-- The C `isspace` in the "C" locale. -/
def isspace (c : Char) : Bool :=
  c.toNat = 32 || (9 ≤ c.toNat && c.toNat ≤ 13)

/-- The C `isdigit`. -/
def isdigit (c : Char) : Bool :=
  48 ≤ c.toNat && c.toNat ≤ 57

/-- The expression `c - '0'` on a character. -/
def digitOf (c : Char) : Int :=
  (c.toNat : Int) - 48

/-- The loop `acc = acc * 10 + (c - '0')` over a run of characters. -/
def accumulate (cs : CStr) : Int :=
  cs.foldl (fun acc c => acc * 10 + digitOf c) 0

/-- The C `atoi`: leading white space, an optional sign, then decimal digits. -/
def atoi (s : CStr) : Int :=
  let s1 := s.dropWhile isspace
  if s1.head? = some '-' then - accumulate ((s1.drop 1).takeWhile isdigit)
  else if s1.head? = some '+' then accumulate ((s1.drop 1).takeWhile isdigit)
  else accumulate (s1.takeWhile isdigit)

/-- One `%s` directive of `sscanf`: skip white space, then read the run of
non-space characters.  `none` when the input ends before a character is read.
The result is the word and the unread rest. -/
def scanWord (s : CStr) : Option (CStr × CStr) :=
  let s1 := s.dropWhile isspace
  if s1 = [] then none
  else some (s1.takeWhile (fun c => !isspace c), s1.dropWhile (fun c => !isspace c))

/-- The directive `%5s` of `sscanf`: as `scanWord`, reading at most five characters. -/
def scanWord5 (s : CStr) : Option (CStr × CStr) :=
  let s1 := s.dropWhile isspace
  if s1 = [] then none
  else
    let w := (s1.takeWhile (fun c => !isspace c)).take 5
    some (w, s1.drop w.length)

/-- The delimiters of `strtok (..., ", ")`. -/
def isDelim (c : Char) : Bool :=
  c = ',' || c = ' '

/-- One call of `strtok (..., ", ")`: skip delimiters, return the token and the
text after the delimiter that ended it; `none` for the NULL result. -/
def strtok (s : CStr) : Option (CStr × CStr) :=
  let s1 := s.dropWhile isDelim
  if s1 = [] then none
  else some (s1.takeWhile (fun c => !isDelim c), (s1.dropWhile (fun c => !isDelim c)).drop 1)

/-- The forward loop `for (i = start; i < start + n; i++) if (p i) return i`. -/
def findFirst (p : Nat → Bool) (start : Nat) : Nat → Option Nat
  | 0 => none
  | n + 1 => if p start then some start else findFirst p (start + 1) n

/-! ## `generate_opcode` -/

/-- The function `generate_opcode`. -/
def generate_opcode (instruction : CStr) : Int :=
  if instruction = ['M', 'O', 'V'] then OP_MOV_MEM_TO_REG
  else if instruction = ['A', 'D', 'D'] then OP_ADD
  else if instruction = ['S', 'U', 'B'] then OP_SUB
  else if instruction = ['M', 'U', 'L'] then OP_MUL
  else if instruction = ['J', 'U', 'M', 'P'] ∨ instruction = ['E', 'L', 'S', 'E'] then OP_JUMP
  else if instruction = ['I', 'F'] then OP_IF
  else if instruction = ['E', 'Q'] then OP_EQ
  else if instruction = ['L', 'T'] then OP_LT
  else if instruction = ['G', 'T'] then OP_GT
  else if instruction = ['L', 'T', 'E', 'Q'] then OP_LTEQ
  else if instruction = ['G', 'T', 'E', 'Q'] then OP_GTEQ
  else if instruction = ['P', 'R', 'I', 'N', 'T'] then OP_PRINT
  else if instruction = ['R', 'E', 'A', 'D'] then OP_READ
  else if instruction = ['E', 'N', 'D', 'I', 'F'] then OP_ENDIF
  else if instruction = ['E', 'N', 'D'] then OP_END
  else -1

/-! ## Declarations: `const_func`, `data_func` -/

/-- The address `const_func` and `data_func` give the entry at `symbol_index`:
`VARIABLE_MEMORY_START` for the first entry, otherwise the previous address plus
the previous size, or plus 1 when that size is 0. -/
def nextAddress (s : State) : Int :=
  if s.symbol_index = 0 then VARIABLE_MEMORY_START
  else if (s.symbol_tab (s.symbol_index - 1)).size ≠ 0 then
    (s.symbol_tab (s.symbol_index - 1)).address + (s.symbol_tab (s.symbol_index - 1)).size
  else (s.symbol_tab (s.symbol_index - 1)).address + 1

/-- The function `const_func`.  `none`: the entry lies outside the 25 allocated
entries, or `memory[*memory_index]` lies outside `memory_array`. -/
def const_func (tokens : Nat → CStr) (s : State) : Option State :=
  if ¬ s.symbol_index < SYMBOL_SLOTS then none
  else if ¬ (0 ≤ s.memory_index ∧ s.memory_index < MEMORY_SIZE) then none
  else
    let entry : symbol_table :=
      { variable_name := (tokens 1).take (VARIABLE_LENGTH - 1)
        address := nextAddress s
        size := CONST_VARIABLE_SIZE }
    some { s with
      symbol_tab := Function.update s.symbol_tab s.symbol_index entry
      symbol_index := s.symbol_index + 1
      memory_array := Function.update s.memory_array s.memory_index.toNat (atoi (tokens 3))
      memory_index := s.memory_index + 1 }

/-- The array size `data_func` reads from the token: 0 without a bracket, else
the accumulated characters between the bracket and the closing one. -/
def declaredSize (token : CStr) : Int :=
  let rest := token.dropWhile (fun c => c ≠ '[')
  if rest.head? = some '[' then accumulate ((rest.drop 1).takeWhile (fun c => c ≠ ']')) else 0

/-- The function `data_func`.  `none`: the entry lies outside the 25 allocated
entries, or the name part does not fit the local `variable_name[VARIABLE_LENGTH]`. -/
def data_func (tokens : Nat → CStr) (s : State) : Option State :=
  let variable_name := (tokens 1).takeWhile (fun c => c ≠ '[')
  let size := declaredSize (tokens 1)
  if ¬ s.symbol_index < SYMBOL_SLOTS then none
  else if ¬ variable_name.length < VARIABLE_LENGTH then none
  else
    let entry : symbol_table :=
      { variable_name := variable_name.take (VARIABLE_LENGTH - 1)
        address := nextAddress s
        size := if size > 0 then size else 1 }
    some { s with
      symbol_tab := Function.update s.symbol_tab s.symbol_index entry
      symbol_index := s.symbol_index + 1
      memory_index := entry.address + entry.size }

/-- The tokenizer loop of `main` over one line: `buf` is the buffer filled so
far, `row` the next token row.  `none`: a write past the 10-byte buffer or past
the 10 token rows. -/
def tokenizeFrom : CStr → CStr → Nat → (Nat → CStr) → Option (Nat × (Nat → CStr))
  | [], _, row, tokens => some (row, tokens)
  | c :: cs, buf, row, tokens =>
    if ¬ buf.length < TOKEN_BUFFER then none
    else if c = ' ' ∨ c = Char.ofNat 10 then
      if buf ≠ [] then
        if ¬ row < TOKEN_ROWS then none
        else tokenizeFrom cs [] (row + 1) (Function.update tokens row (buf.take 9))
      else tokenizeFrom cs [] row tokens
    else tokenizeFrom cs (buf ++ [c]) row tokens

/-- The line `START:` with its newline, as `fgets` delivers it. -/
def startLine : CStr := ['S', 'T', 'A', 'R', 'T', ':', Char.ofNat 10]

/-- One iteration of the declaration loop of `main` on a line other than `START:`. -/
def processDeclaration (line : CStr) (s : State) : Option State :=
  match tokenizeFrom line [] 0 s.tokens with
  | none => none
  | some (row, tokens) =>
    let s1 := { s with tokens := tokens }
    if row > 0 then
      if tokens 0 = ['D', 'A', 'T', 'A'] then data_func tokens s1
      else if tokens 0 = ['C', 'O', 'N', 'S', 'T'] then const_func tokens s1
      else some s1
    else some s1

/-- The declaration loop of `main`: lines are processed up to the first `START:`
line (or the end of the file); the result is the state and the unread lines. -/
def declarations : List CStr → State → Option (State × List CStr)
  | [], s => some (s, [])
  | line :: rest, s =>
    if line = startLine then some (s, rest)
    else
      match processDeclaration line s with
      | none => none
      | some s1 => declarations rest s1

/-! ## Address resolution: `getAddress` -/

/-- The register test `v[1] == 'X' && v[0] >= 'A' && v[0] <= 'H'`. -/
def isRegisterName (v : CStr) : Bool :=
  v.getD 1 (Char.ofNat 0) = 'X' && 65 ≤ (v.getD 0 (Char.ofNat 0)).toNat
    && (v.getD 0 (Char.ofNat 0)).toNat ≤ 72

/-- The function `getAddress`.  The name part is what `sscanf` stores in
`temp[VARIABLE_LENGTH]`: the text before the first bracket for an array
reference, else the text before the first asterisk.  `none`: that text is empty
(`temp` is then read without having been written) or does not fit `temp`.
The copy back into the caller's buffer is not modelled: no caller reads the
buffer again.  The index loop and the final sum are computed in `Int`: they are
those of the C code as long as the values stay within `int`, which an index of
at most nine digits does; beyond that the C loop overflows, with no defined
behaviour, and the statements about array references say which indices they
cover. -/
def getAddress (s : State) (variable_name : CStr) : Option Int :=
  if isRegisterName variable_name then
    some ((variable_name.getD 0 (Char.ofNat 0)).toNat - 65)
  else
    let is_array : Bool := decide ('[' ∈ variable_name)
    let array_index : Int :=
      if is_array then
        accumulate (((variable_name.dropWhile (fun c => c ≠ '[')).drop 1).takeWhile
          (fun c => c ≠ ']'))
      else 0
    let temp : CStr :=
      if is_array then variable_name.takeWhile (fun c => c ≠ '[')
      else variable_name.takeWhile (fun c => c ≠ '*')
    if temp = [] then none
    else if ¬ temp.length < VARIABLE_LENGTH then none
    else
      match findFirst (fun i => decide ((s.symbol_tab i).variable_name = temp)) 0
          s.symbol_index with
      | some i =>
        if is_array then some ((s.symbol_tab i).address + array_index)
        else some (s.symbol_tab i).address
      | none => some (-1)

/-! ## Instruction translation -/

/-- The function `mov_func`.  `none`: the table is full, or an operand has an
empty name part. -/
def mov_func (param : CStr) (instruction_no : Int) (s : State) : Option State :=
  match strtok param with
  | none => some s
  | some (token1, rest1) =>
    match strtok rest1 with
    | none => some s
    | some (token2, _) =>
      let dest := token1.take (VARIABLE_LENGTH - 1)
      let src := token2.take (VARIABLE_LENGTH - 1)
      if ¬ s.intermediate_index < INTERMEDIATE_SLOTS then none
      else
        match getAddress s dest, getAddress s src with
        | some a, some b =>
          let e0 := { s.intermediate_table s.intermediate_index with
            instruc_no := instruction_no }
          let e1 := { e0 with
            opcode := if isRegisterName dest then OP_MOV_REG_TO_MEM else OP_MOV_MEM_TO_REG }
          let e := setParam (setParam (setParam e1 0 a) 1 b) 2 (-1)
          some { setSlot s s.intermediate_index e with
            intermediate_index := s.intermediate_index + 1 }
        | _, _ => none

/-- The function `binaryOperations_func`.  `none`: the table is full, or an
operand has an empty name part. -/
def binaryOperations_func (opcode : Int) (param : CStr) (instruction_no : Int)
    (s : State) : Option State :=
  match strtok param with
  | none => some s
  | some (token1, rest1) =>
    match strtok rest1 with
    | none => some s
    | some (token2, rest2) =>
      match strtok rest2 with
      | none => some s
      | some (token3, _) =>
        let dest := token1.take (VARIABLE_LENGTH - 1)
        let operand1 := token2.take (VARIABLE_LENGTH - 1)
        let operand2 := token3.take (VARIABLE_LENGTH - 1)
        if ¬ s.intermediate_index < INTERMEDIATE_SLOTS then none
        else
          match getAddress s dest, getAddress s operand1, getAddress s operand2 with
          | some a, some b, some c =>
            let e0 := { s.intermediate_table s.intermediate_index with
              opcode := opcode, instruc_no := instruction_no }
            let e := setParam (setParam (setParam (setParam e0 0 a) 1 b) 2 c) 3 (-1)
            some { setSlot s s.intermediate_index e with
              intermediate_index := s.intermediate_index + 1 }
          | _, _, _ => none

/-- The function `read_func`.  `none`: the table is full, or `getAddress` is
undefined on the operand. -/
def read_func (param : CStr) (instruction_no : Int) (s : State) : Option State :=
  if ¬ s.intermediate_index < INTERMEDIATE_SLOTS then none
  else
    match getAddress s param with
    | none => none
    | some a =>
      let e0 := setParam (setParam (s.intermediate_table s.intermediate_index) 0 a) 1 (-1)
      let e := { e0 with opcode := OP_READ, instruc_no := instruction_no }
      some { setSlot s s.intermediate_index e with
        intermediate_index := s.intermediate_index + 1 }

/-- The function `print_func`.  `none`: the table is full, or `getAddress` is
undefined on the operand. -/
def print_func (param : CStr) (instruction_no : Int) (s : State) : Option State :=
  if ¬ s.intermediate_index < INTERMEDIATE_SLOTS then none
  else
    match getAddress s param with
    | none => none
    | some a =>
      let e0 := setParam (setParam (s.intermediate_table s.intermediate_index) 0 a) 1 (-1)
      let e := { e0 with opcode := OP_PRINT, instruc_no := instruction_no }
      some { setSlot s s.intermediate_index e with
        intermediate_index := s.intermediate_index + 1 }

/-- The statement `stack[++(*top)] = instruction_no`. -/
def push (instruction_no : Int) (s : State) : State :=
  { s with top := s.top + 1, stack := Function.update s.stack (s.top + 1).toNat instruction_no }

/-- The function `if_func`.  The three words are what `sscanf ("%s %s %s")`
stores in `operand1[VARIABLE_LENGTH]`, `oper[4]` and `operand2[VARIABLE_LENGTH]`.
`none`: a word does not fit its buffer, the table is full, or `getAddress` is
undefined on an operand. -/
def if_func (param : CStr) (instruction_no : Int) (s : State) : Option State :=
  match scanWord param with
  | none => some s
  | some (operand1, rest1) =>
    if ¬ operand1.length < VARIABLE_LENGTH then none
    else
      match scanWord rest1 with
      | none => some s
      | some (oper, rest2) =>
        if ¬ oper.length < 4 then none
        else
          match scanWord rest2 with
          | none => some s
          | some (operand2, _) =>
            if ¬ operand2.length < VARIABLE_LENGTH then none
            else if ¬ s.intermediate_index < INTERMEDIATE_SLOTS then none
            else
              match getAddress s operand1, getAddress s operand2 with
              | some a, some b =>
                let e0 := { s.intermediate_table s.intermediate_index with
                  instruc_no := instruction_no, opcode := OP_IF }
                let e := setParam (setParam (setParam (setParam (setParam e0 0 a) 1 b) 2
                  (generate_opcode oper)) 3 WILDCARD_VALUE) 4 (-1)
                let s1 := setSlot s s.intermediate_index e
                if s1.top ≥ STACK_SIZE - 1 then some s1
                else some { push instruction_no s1 with
                  intermediate_index := s1.intermediate_index + 1 }
              | _, _ => none

/-- The function `else_func`.  `none`: the table is full. -/
def else_func (instruction_no : Int) (s : State) : Option State :=
  if ¬ s.intermediate_index < INTERMEDIATE_SLOTS then none
  else
    let e0 := { s.intermediate_table s.intermediate_index with
      instruc_no := instruction_no, opcode := OP_JUMP }
    let e := setParam (setParam e0 0 WILDCARD_VALUE) 1 (-1)
    let s1 := setSlot s s.intermediate_index e
    if s1.top ≥ STACK_SIZE - 1 then some s1
    else some { push instruction_no s1 with intermediate_index := s1.intermediate_index + 1 }

/-- The backward scan of `endif_func`:
`while (i > 0 && intermediate_table[i-1]->instruc_no != popped_value) i--`. -/
def scanBack (table : Nat → intermediate_lang) (popped_value : Int) : Nat → Nat
  | 0 => 0
  | i + 1 => if (table i).instruc_no ≠ popped_value then scanBack table popped_value i else i + 1

/-- The function `endif_func`.  `main` keeps `top` between -1 and
`STACK_SIZE - 1`, so `stack[top]` is read inside the array. -/
def endif_func (instruction_no : Int) (s : State) : State :=
  if s.top < 0 then s
  else
    let popped_value := s.stack s.top.toNat
    let s1 := { s with top := s.top - 1 }
    let i := scanBack s1.intermediate_table popped_value s1.intermediate_index
    if i ≤ 0 then s1
    else
      let s2 := setSlot s1 (i - 1) (setParam (s1.intermediate_table (i - 1)) 0 instruction_no)
      if (s2.intermediate_table (i - 1)).opcode = OP_JUMP then s2
      else if s2.top < 0 then s2
      else
        let temp := popped_value
        let popped_value2 := s2.stack s2.top.toNat
        let s3 := { s2 with top := s2.top - 1 }
        let j := scanBack s3.intermediate_table popped_value2 s3.intermediate_index
        if j ≤ 0 then s3
        else setSlot s3 (j - 1) (setParam (s3.intermediate_table (j - 1)) 3 (temp + 1))

/-- The function `jump_func`.  `none`: the table is full. -/
def jump_func (param : CStr) (instruction_no : Int) (s : State) : Option State :=
  if ¬ s.intermediate_index < INTERMEDIATE_SLOTS then none
  else
    let e0 := { s.intermediate_table s.intermediate_index with
      instruc_no := instruction_no, opcode := OP_JUMP }
    let e :=
      match findFirst (fun i => decide ((s.block_tab i).name = param)) 0 s.blocks_index with
      | some i => setParam (setParam e0 0 (s.block_tab i).instr_no) 1 (-1)
      | none => setParam (setParam e0 0 0) 1 (-1)
    some { setSlot s s.intermediate_index e with
      intermediate_index := s.intermediate_index + 1 }

/-! ## The instruction loop of `main` -/

/-- What one iteration of the instruction loop leaves: the loop goes on, the
loop was left through `goto ending`, or the iteration has no defined behaviour. -/
inductive Step where
  | running (s : State)
  | ended (s : State)
  | undefined

/-- Lift a generator function into the loop, storing the line counter. -/
def Step.ofOption (instruction_no : Int) : Option State → Step
  | some s => Step.running { s with instruction_no := instruction_no }
  | none => Step.undefined

/-- The state a step leaves, when it leaves one. -/
def Step.state? : Step → Option State
  | Step.running s => some s
  | Step.ended s => some s
  | Step.undefined => none

/-- The label branch of the loop on the line without its colon. -/
def recordLabel (name : CStr) (instruction_no : Int) (s : State) : State :=
  if s.blocks_index ≥ BLOCK_SLOTS then { s with instruction_no := instruction_no }
  else
    { s with
      block_tab := Function.update s.block_tab s.blocks_index
        { name := name.take (LABEL_LENGTH - 1), instr_no := instruction_no }
      blocks_index := s.blocks_index + 1
      instruction_no := instruction_no - 1 }

/-- The two `sscanf` calls of the loop, `"%5s %[^*]"` then `"%5s"`: the mnemonic
and the parameter text (empty when the second directive matched nothing);
`none` when no mnemonic could be read. -/
def parseInstruction (line : CStr) : Option (CStr × CStr) :=
  match scanWord5 line with
  | none => none
  | some (instruction, rest) =>
    some (instruction, (rest.dropWhile isspace).takeWhile (fun c => c ≠ '*'))

/-- The `switch (opcode)` of the loop. -/
def dispatch (instruction param : CStr) (instruction_no : Int) (s : State) : Step :=
  let opcode := generate_opcode instruction
  if opcode = OP_MOV_MEM_TO_REG then Step.ofOption instruction_no (mov_func param instruction_no s)
  else if opcode = OP_ADD ∨ opcode = OP_SUB ∨ opcode = OP_MUL then
    Step.ofOption instruction_no (binaryOperations_func opcode param instruction_no s)
  else if opcode = OP_JUMP then
    if instruction = ['E', 'L', 'S', 'E'] then
      Step.ofOption instruction_no (else_func instruction_no s)
    else Step.ofOption instruction_no (jump_func param instruction_no s)
  else if opcode = OP_IF then Step.ofOption instruction_no (if_func param instruction_no s)
  else if opcode = OP_PRINT then Step.ofOption instruction_no (print_func param instruction_no s)
  else if opcode = OP_READ then Step.ofOption instruction_no (read_func param instruction_no s)
  else if opcode = OP_ENDIF then
    Step.running { endif_func instruction_no s with instruction_no := instruction_no - 1 }
  else if opcode = OP_END then Step.ended { s with instruction_no := instruction_no }
  else Step.running { s with instruction_no := instruction_no }

/-- The text before the colon when the line `fgets` read is a label line: its last
character, the newline apart, is a colon. -/
def labelText (raw : CStr) : Option CStr :=
  let line := raw.takeWhile (fun c => c ≠ Char.ofNat 10)
  if line ≠ [] ∧ line.getLast? = some ':' then some line.dropLast else none

/-- One iteration of the instruction loop of `main` on the line `fgets` read.
An empty line makes the loop read `line[-1]`: no defined behaviour. -/
def processLine (raw : CStr) (s : State) : Step :=
  let instruction_no := s.instruction_no + 1
  let line := raw.takeWhile (fun c => c ≠ Char.ofNat 10)
  if line = [] then Step.undefined
  else if line.getLast? = some ':' then Step.running (recordLabel line.dropLast instruction_no s)
  else
    match parseInstruction line with
    | none => Step.running { s with instruction_no := instruction_no }
    | some (instruction, param) => dispatch instruction param instruction_no s

/-- The instruction loop of `main` over the lines `fgets` delivers, up to the end
of the file or the first `END`. -/
def run : List CStr → State → Step
  | [], s => Step.running s
  | line :: rest, s =>
    match processLine line s with
    | Step.running s1 => run rest s1
    | Step.ended s1 => Step.ended s1
    | Step.undefined => Step.undefined

/-- The state of `main` when the first line is read: empty tables, `top = -1`,
`memory_index = VARIABLE_MEMORY_START - 1`, `instruction_no = 0`; the contents of
the arrays are those of `u`. -/
def main_init (u : State) : State :=
  { u with
    intermediate_index := 0
    symbol_index := 0
    blocks_index := 0
    top := -1
    memory_index := VARIABLE_MEMORY_START - 1
    instruction_no := 0 }

/-- The check after the label `ending:` that reports unmatched IF/ELSE. -/
def unmatchedReported (s : State) : Bool :=
  decide (s.top ≥ 0)

/-- A state whose arrays hold zeros and empty strings. -/
def zeroState : State :=
  { intermediate_index := 0
    intermediate_table := fun _ => { instruc_no := 0, opcode := 0, parameters := fun _ => 0 }
    symbol_index := 0
    symbol_tab := fun _ => { variable_name := [], address := 0, size := 0 }
    blocks_index := 0
    block_tab := fun _ => { name := [], instr_no := 0 }
    stack := fun _ => 0
    top := -1
    memory_array := fun _ => 0
    memory_index := 0
    tokens := fun _ => []
    instruction_no := 0 }

/-! ## Relating two runs of one line -/

/-- Two states that agree on everything the generator's control flow reads: the
cursor of the instruction table, the instruction number and opcode of every
slot, the stack, the symbol table and the line counter.  The parameters of the
slots and the label table may differ. -/
structure sameCode (s t : State) : Prop where
  index : s.intermediate_index = t.intermediate_index
  number : ∀ i, (s.intermediate_table i).instruc_no = (t.intermediate_table i).instruc_no
  opcode : ∀ i, (s.intermediate_table i).opcode = (t.intermediate_table i).opcode
  top : s.top = t.top
  stack : s.stack = t.stack
  symbol_index : s.symbol_index = t.symbol_index
  symbol_tab : s.symbol_tab = t.symbol_tab
  counter : s.instruction_no = t.instruction_no

/-- What a line that is not a label does to two states `s` and `t` that agree as
`sameCode`, the line counter of the iteration being `n`: the same primitive
effect on both. -/
inductive Related (n : Int) (s t : State) : Step → Step → Prop where
  | undefined : Related n s t Step.undefined Step.undefined
  | skip : Related n s t (Step.running { s with instruction_no := n })
      (Step.running { t with instruction_no := n })
  | ended : Related n s t (Step.ended { s with instruction_no := n })
      (Step.ended { t with instruction_no := n })
  | endif : Related n s t
      (Step.running { endif_func n s with instruction_no := n - 1 })
      (Step.running { endif_func n t with instruction_no := n - 1 })
  | slot (e f : intermediate_lang) (he : e.instruc_no = n) (hf : f.instruc_no = n)
      (hop : e.opcode = f.opcode) (hfull : ¬ s.top < STACK_SIZE - 1) :
      Related n s t
        (Step.running { setSlot s s.intermediate_index e with instruction_no := n })
        (Step.running { setSlot t s.intermediate_index f with instruction_no := n })
  | emit (e f : intermediate_lang) (he : e.instruc_no = n) (hf : f.instruc_no = n)
      (hop : e.opcode = f.opcode) (hcap : s.intermediate_index < INTERMEDIATE_SLOTS) :
      Related n s t
        (Step.running { setSlot s s.intermediate_index e with
          intermediate_index := s.intermediate_index + 1, instruction_no := n })
        (Step.running { setSlot t s.intermediate_index f with
          intermediate_index := s.intermediate_index + 1, instruction_no := n })
  | opens (e f : intermediate_lang) (he : e.instruc_no = n) (hf : f.instruc_no = n)
      (hop : e.opcode = f.opcode) (hkind : e.opcode = OP_IF ∨ e.opcode = OP_JUMP)
      (hcap : s.intermediate_index < INTERMEDIATE_SLOTS) (hroom : s.top < STACK_SIZE - 1) :
      Related n s t
        (Step.running { push n (setSlot s s.intermediate_index e) with
          intermediate_index := s.intermediate_index + 1, instruction_no := n })
        (Step.running { push n (setSlot t s.intermediate_index f) with
          intermediate_index := s.intermediate_index + 1, instruction_no := n })

/-- Two steps of the loop that leave states agreeing as `sameCode`. -/
def StepSame : Step → Step → Prop
  | Step.running a, Step.running b => sameCode a b
  | Step.ended a, Step.ended b => sameCode a b
  | Step.undefined, Step.undefined => True
  | _, _ => False

/-! ## Kinds of lines, invariants and observations -/

/-- The number of label lines among the given lines. -/
def countLabels (lines : List CStr) : Nat :=
  (lines.filter (fun raw => (labelText raw).isSome)).length

/-- The instruction numbers of the emitted instructions, in table order. -/
def numbers (s : State) : List Int :=
  (List.range s.intermediate_index).map (fun i => (s.intermediate_table i).instruc_no)

/-- The mnemonic and the parameter text the loop hands to `dispatch`, for a line
that is neither empty nor a label and on which `sscanf` reads a mnemonic. -/
def instructionOf (raw : CStr) : Option (CStr × CStr) :=
  if raw.takeWhile (fun c => c ≠ Char.ofNat 10) = [] then none
  else if (labelText raw).isSome then none
  else parseInstruction (raw.takeWhile (fun c => c ≠ Char.ofNat 10))

/-- The line is an `ENDIF` line. -/
def isEndifLine (raw : CStr) : Bool :=
  (instructionOf raw).map Prod.fst = some ['E', 'N', 'D', 'I', 'F']

/-- The slot `k` of the instruction table a step leaves. -/
def Step.slot (r : Step) (k : Nat) : Option intermediate_lang :=
  r.state?.map (fun s => s.intermediate_table k)

/-- Parameter `j` of the slot `k` of the instruction table a step leaves. -/
def Step.param (r : Step) (k : Nat) (j : Fin 5) : Option Int :=
  r.state?.map (fun s => (s.intermediate_table k).parameters j)

/-- The opcode of the slot `k` of the instruction table a step leaves. -/
def Step.opcodeAt (r : Step) (k : Nat) : Option Int :=
  r.state?.map (fun s => (s.intermediate_table k).opcode)

/-- The instruction number of the slot `k` of the instruction table a step leaves. -/
def Step.numberAt (r : Step) (k : Nat) : Option Int :=
  r.state?.map (fun s => (s.intermediate_table k).instruc_no)

/-- The number of emitted instructions a step leaves. -/
def Step.emitted (r : Step) : Option Nat :=
  r.state?.map (fun s => s.intermediate_index)

/-- The instruction number recorded in the entry `k` of the label table a step leaves. -/
def Step.labelAt (r : Step) (k : Nat) : Option Int :=
  r.state?.map (fun s => (s.block_tab k).instr_no)

/-- The name stored in the entry `k` of the label table a step leaves. -/
def Step.labelName (r : Step) (k : Nat) : Option CStr :=
  r.state?.map (fun s => (s.block_tab k).name)

/-- The stack index `top` a step leaves. -/
def Step.topOf (r : Step) : Option Int :=
  r.state?.map (fun s => s.top)

/-- The value in the stack cell `k` a step leaves. -/
def Step.stackAt (r : Step) (k : Nat) : Option Int :=
  r.state?.map (fun s => s.stack k)

/-! ## Declarations as a sequence of calls -/

/-- One call of `const_func` or `data_func`, with the token rows it receives. -/
inductive Declaration where
  | CONST (tokens : Nat → CStr)
  | DATA (tokens : Nat → CStr)

/-- The call the declaration loop makes for a declaration. -/
def declare : Declaration → State → Option State
  | Declaration.CONST tokens, s => const_func tokens s
  | Declaration.DATA tokens, s => data_func tokens s

/-- A sequence of calls of `const_func` and `data_func`, in order. -/
def declareAll : List Declaration → State → Option State
  | [], s => some s
  | d :: ds, s =>
    match declare d s with
    | none => none
    | some s1 => declareAll ds s1

/-- The size stored for a declaration: `CONST_VARIABLE_SIZE` for a constant, the
declared size (1 when none is declared) for a `DATA` entry. -/
def Declaration.size : Declaration → Int
  | Declaration.CONST _ => CONST_VARIABLE_SIZE
  | Declaration.DATA tokens => if declaredSize (tokens 1) > 0 then declaredSize (tokens 1) else 1

/-- The distance from the address of a declaration to the next address. -/
def Declaration.footprint (d : Declaration) : Int :=
  if d.size ≠ 0 then d.size else 1

/-- The name part of a `DATA` declaration fits the local buffer of `data_func`. -/
def Declaration.fits : Declaration → Bool
  | Declaration.CONST _ => true
  | Declaration.DATA tokens =>
    decide (((tokens 1).takeWhile (fun c => c ≠ '[')).length < VARIABLE_LENGTH)

/-- The address law of the symbol table: the first entry is at
`VARIABLE_MEMORY_START`, each later entry at the previous address plus the
previous size (plus 1 when that size is 0), and no size is negative. -/
def addressLaw (s : State) : Prop :=
  (0 < s.symbol_index → (s.symbol_tab 0).address = VARIABLE_MEMORY_START) ∧
  (∀ i, i + 1 < s.symbol_index →
    (s.symbol_tab (i + 1)).address = (s.symbol_tab i).address +
      (if (s.symbol_tab i).size ≠ 0 then (s.symbol_tab i).size else 1)) ∧
  (∀ i, i < s.symbol_index → 0 ≤ (s.symbol_tab i).size)

/-! ## Sample inputs -/

/-- The token rows of the declaration `CONST a = 5`. -/
def constA : Nat → CStr
  | 0 => ['C', 'O', 'N', 'S', 'T']
  | 1 => ['a']
  | 2 => ['=']
  | 3 => ['5']
  | _ => []

/-- The token rows of the declaration `DATA y[3]`. -/
def dataY : Nat → CStr
  | 0 => ['D', 'A', 'T', 'A']
  | 1 => ['y', '[', '3', ']']
  | _ => []

/-- The token rows of the declaration `DATA x`. -/
def dataX : Nat → CStr
  | 0 => ['D', 'A', 'T', 'A']
  | 1 => ['x']
  | _ => []

/-- The declarations `CONST a = 5`, `DATA y[3]`, `DATA x`, `CONST a = 5`. -/
def sampleDeclarations : List Declaration :=
  [Declaration.CONST constA, Declaration.DATA dataY, Declaration.DATA dataX,
    Declaration.CONST constA]

/-- Forty-nine label lines `A:`, which leave room for one more label. -/
def fortyNineLabels : List CStr :=
  List.replicate 49 ['A', ':']

/-- The line `IF AX EQ BX`. -/
def lineIf : CStr := ['I', 'F', ' ', 'A', 'X', ' ', 'E', 'Q', ' ', 'B', 'X']

/-- The line `ELSE`. -/
def lineElse : CStr := ['E', 'L', 'S', 'E']

/-- The line `ENDIF`. -/
def lineEndif : CStr := ['E', 'N', 'D', 'I', 'F']

/-- The line `PRINT AX`. -/
def linePrint : CStr := ['P', 'R', 'I', 'N', 'T', ' ', 'A', 'X']

/-- The declaration line `CONST a = 5`, with its newline. -/
def lineConst : CStr :=
  ['C', 'O', 'N', 'S', 'T', ' ', 'a', ' ', '=', ' ', '5', Char.ofNat 10]

/-- The declaration line `DATA x`, with its newline. -/
def lineData : CStr := ['D', 'A', 'T', 'A', ' ', 'x', Char.ofNat 10]

/-- The symbol address of the entry `k`, the memory cell 7 and the memory cell
`cell`, after the declaration loop. -/
def constantCells (r : Option (State × List CStr)) (k cell : Nat) : Option (Int × Int × Int) :=
  r.map (fun p => ((p.1.symbol_tab k).address, p.1.memory_array 7, p.1.memory_array cell))

/-! ## Names, decimal values and whole programs -/

/-- The name part of an operand, in the words of the specification: the operand
without its array-index suffix (the text before the first bracket) or, when it
has none, the text before the first dereference marker. -/
def namePart (operand : CStr) : CStr :=
  if '[' ∈ operand then operand.takeWhile (fun c => c ≠ '[')
  else operand.takeWhile (fun c => c ≠ '*')

/-- The decimal value of a string of digits, most significant digit first. -/
def decimalValue : CStr → Nat
  | [] => 0
  | c :: cs => (c.toNat - 48) * 10 ^ cs.length + decimalValue cs

/-- The two loops of `main` in sequence: the declarations up to `START:`, then
the instruction loop on the lines that follow. -/
def generate (file : List CStr) (u : State) : Step :=
  match declarations file (main_init u) with
  | none => Step.undefined
  | some (s, rest) => run rest s

/-- The address `getAddress` gives for an operand in the state a step leaves. -/
def Step.address (r : Step) (operand : CStr) : Option Int :=
  r.state?.bind (fun s => getAddress s operand)

/-- The line `IF BX EQ AX`. -/
def lineIfBX : CStr := ['I', 'F', ' ', 'B', 'X', ' ', 'E', 'Q', ' ', 'A', 'X']

/-- The file `DATA x`, `START:`, `MOV AX, x`, `MOV x, AX`. -/
def fileMov : List CStr :=
  [['D', 'A', 'T', 'A', ' ', 'x', Char.ofNat 10], startLine,
    ['M', 'O', 'V', ' ', 'A', 'X', ',', ' ', 'x', Char.ofNat 10],
    ['M', 'O', 'V', ' ', 'x', ',', ' ', 'A', 'X', Char.ofNat 10]]

/-- The file `DATA arr[4]`, `START:`, `ADD AX, arr[1], BX`. -/
def fileAdd : List CStr :=
  [['D', 'A', 'T', 'A', ' ', 'a', 'r', 'r', '[', '4', ']', Char.ofNat 10], startLine,
    ['A', 'D', 'D', ' ', 'A', 'X', ',', ' ', 'a', 'r', 'r', '[', '1', ']', ',', ' ', 'B', 'X',
      Char.ofNat 10]]

/-- Fifty-one label lines `A:`, one more than the label table holds. -/
def fiftyOneLabels : List CStr :=
  List.replicate 51 ['A', ':']

/-- Every line the run processes is a label line met with room in the label
table, an ENDIF line, or a line that emits an instruction; the run may stop at
an `END` line. -/
def everyLineEmits : List CStr → State → Prop
  | [], _ => True
  | raw :: rest, s =>
    match processLine raw s with
    | Step.running s1 =>
      (((labelText raw).isSome = true ∧ s.blocks_index < BLOCK_SLOTS) ∨
        isEndifLine raw = true ∨
        s1.intermediate_index = s.intermediate_index + 1) ∧ everyLineEmits rest s1
    | Step.ended _ => True
    | Step.undefined => True

/-- The emitted instructions are numbered 1, 2, 3, ... in table order. -/
def numberedFromOne (s : State) : Prop :=
  ∀ k, k < s.intermediate_index → (s.intermediate_table k).instruc_no = (k : Int) + 1

/-- A symbol table with the entries `x` (address 8, size 1), `arr` (address 9,
size 4) and a second `x` (address 13, size 0). -/
def sampleTable : State :=
  { zeroState with
    symbol_index := 3
    symbol_tab := fun i =>
      match i with
      | 0 => { variable_name := ['x'], address := 8, size := 1 }
      | 1 => { variable_name := ['a', 'r', 'r'], address := 9, size := 4 }
      | _ => { variable_name := ['x'], address := 13, size := 0 } }

/-- The stored name and size of the symbol entry `k` and the memory cell `cell`,
after the declaration loop. -/
def declaredEntry (r : Option (State × List CStr)) (k cell : Nat) :
    Option (CStr × Int × Int) :=
  r.map (fun p => ((p.1.symbol_tab k).variable_name, (p.1.symbol_tab k).size,
    p.1.memory_array cell))

/-- The line `PRINT zz`. -/
def linePrintZZ : CStr := ['P', 'R', 'I', 'N', 'T', ' ', 'z', 'z']

/-- The line `READ zz`. -/
def lineReadZZ : CStr := ['R', 'E', 'A', 'D', ' ', 'z', 'z']

/-- The declaration line `CONST a = 7`, with its newline. -/
def lineConstSeven : CStr :=
  ['C', 'O', 'N', 'S', 'T', ' ', 'a', ' ', '=', ' ', '7', Char.ofNat 10]

/-- The declaration line `CONST b 5`, with its newline. -/
def lineConstThree : CStr :=
  ['C', 'O', 'N', 'S', 'T', ' ', 'b', ' ', '5', Char.ofNat 10]

/-- The declaration line `CONST total 5`, with its newline. -/
def lineConstTotal : CStr :=
  ['C', 'O', 'N', 'S', 'T', ' ', 't', 'o', 't', 'a', 'l', ' ', '5', Char.ofNat 10]

/-! ## Kinds of declarations and lines -/

/-- The line is an `END` line: the mnemonic the loop reads is `END`. -/
def isEndLine (raw : CStr) : Bool :=
  (instructionOf raw).map Prod.fst = some ['E', 'N', 'D']

/-- The line `END`, with its newline. -/
def lineEnd : CStr := ['E', 'N', 'D', Char.ofNat 10]

/-- The instruction table index, the label table index and `top` a step leaves. -/
def Step.cursors (r : Step) : Option (Nat × Nat × Int) :=
  r.state?.map (fun s => (s.intermediate_index, s.blocks_index, s.top))

/-- The token rows of the declaration `DATA y[0]`. -/
def dataZero : Nat → CStr
  | 0 => ['D', 'A', 'T', 'A']
  | 1 => ['y', '[', '0', ']']
  | _ => []

/-- The name, address and size of the symbol entry `k` in the state a step leaves. -/
def Step.symbolAt (r : Step) (k : Nat) : Option (CStr × Int × Int) :=
  r.state?.map (fun s => ((s.symbol_tab k).variable_name, (s.symbol_tab k).address,
    (s.symbol_tab k).size))

/-- The file `DATA EXP`, `START:`, `PRINT EXP`, `MOV EXP, AX`. -/
def fileExp : List CStr :=
  [['D', 'A', 'T', 'A', ' ', 'E', 'X', 'P', Char.ofNat 10], startLine,
    ['P', 'R', 'I', 'N', 'T', ' ', 'E', 'X', 'P', Char.ofNat 10],
    ['M', 'O', 'V', ' ', 'E', 'X', 'P', ',', ' ', 'A', 'X', Char.ofNat 10]]

/-- Modelled from the spec: what an execution of the Virtual Machine leaves (the
body of `executor` is missing from the sources): it halted with the values
printed and the final memory, it met an operation without defined behaviour, or
the steps allowed were used up. -/
inductive Outcome where
  | halted (output : List Int) (memory : Nat → Int)
  | undefined
  | unfinished

/-- The values printed by an execution that halted. -/
def Outcome.printed : Outcome → Option (List Int)
  | Outcome.halted output _ => some output
  | Outcome.undefined => none
  | Outcome.unfinished => none

/-- The execution met an operation without defined behaviour. -/
def Outcome.isUndefined : Outcome → Bool
  | Outcome.undefined => true
  | _ => false

/-- Modelled from the spec: the value at an address of the Memory Image, missing
from the sources with the body of `executor`.  The machine does not validate
addresses and an address outside the image has no defined behaviour (section 7):
`none`. -/
def cell (memory : Nat → Int) (address : Int) : Option Int :=
  if 0 ≤ address ∧ address < MEMORY_SIZE then some (memory address.toNat) else none

/-- Modelled from the spec: storing a value at an address of the Memory Image,
missing from the sources with the body of `executor`; `none` for an address
outside the image. -/
def store (memory : Nat → Int) (address value : Int) : Option (Nat → Int) :=
  if 0 ≤ address ∧ address < MEMORY_SIZE then some (Function.update memory address.toNat value)
  else none

/-- Modelled from the spec: the comparison an IF evaluates, chosen by the opcode
in its third parameter (EQ, LT, GT, LTEQ, GTEQ), missing from the sources with
the body of `executor`; `none` for any other value. -/
def comparison (oper a b : Int) : Option Bool :=
  if oper = OP_EQ then some (decide (a = b))
  else if oper = OP_LT then some (decide (a < b))
  else if oper = OP_GT then some (decide (a > b))
  else if oper = OP_LTEQ then some (decide (a ≤ b))
  else if oper = OP_GTEQ then some (decide (a ≥ b))
  else none

/-- Modelled from the spec: where a control-flow opcode sends the program
counter, missing from the sources with the body of `executor`.  A target is an
instruction number: the position is that of the emitted instruction carrying the
number; a target past the number of every emitted instruction leaves the
sequence exhausted (position `count`); any other target names no instruction:
`none`. -/
def locate (table : Nat → intermediate_lang) (count : Nat) (target : Int) : Option Nat :=
  match findFirst (fun i => decide ((table i).instruc_no = target)) 0 count with
  | some i => some i
  | none =>
    if (List.range count).all (fun i => decide ((table i).instruc_no < target)) then some count
    else none

/-- Modelled from the spec: the interpreter loop of the Virtual Machine (section
4.4), missing from the sources (`executor` is only declared, in
`FunctionHeaders.h`).  One program counter, a table position starting at the
first instruction; the MOV variants copy the value at the source address to the
destination address; ADD, SUB, MUL compute into the destination address; READ
takes one integer of the input into the target address; PRINT emits the value at
the target address; IF evaluates the comparison between the two operand values
and on false sends the counter to the false-branch target; JUMP sends the
counter to its target; END halts; the counter advances by one otherwise;
execution halts when the sequence is exhausted.  `fuel` bounds the number of
steps. -/
def executorLoop (table : Nat → intermediate_lang) (count : Nat) :
    Nat → Nat → (Nat → Int) → List Int → List Int → Outcome
  | 0, _, _, _, _ => Outcome.unfinished
  | fuel + 1, pc, memory, input, output =>
    if ¬ pc < count then Outcome.halted output memory
    else
      let e := table pc
      if e.opcode = OP_MOV_MEM_TO_REG ∨ e.opcode = OP_MOV_REG_TO_MEM then
        match (cell memory (e.parameters 1)).bind (store memory (e.parameters 0)) with
        | some memory1 => executorLoop table count fuel (pc + 1) memory1 input output
        | none => Outcome.undefined
      else if e.opcode = OP_ADD ∨ e.opcode = OP_SUB ∨ e.opcode = OP_MUL then
        match cell memory (e.parameters 1), cell memory (e.parameters 2) with
        | some a, some b =>
          let value := if e.opcode = OP_ADD then a + b else if e.opcode = OP_SUB then a - b
            else a * b
          match store memory (e.parameters 0) value with
          | some memory1 => executorLoop table count fuel (pc + 1) memory1 input output
          | none => Outcome.undefined
        | _, _ => Outcome.undefined
      else if e.opcode = OP_READ then
        match input with
        | [] => Outcome.undefined
        | value :: rest =>
          match store memory (e.parameters 0) value with
          | some memory1 => executorLoop table count fuel (pc + 1) memory1 rest output
          | none => Outcome.undefined
      else if e.opcode = OP_PRINT then
        match cell memory (e.parameters 0) with
        | some value => executorLoop table count fuel (pc + 1) memory input (output ++ [value])
        | none => Outcome.undefined
      else if e.opcode = OP_IF then
        match cell memory (e.parameters 0), cell memory (e.parameters 1) with
        | some a, some b =>
          match comparison (e.parameters 2) a b with
          | some true => executorLoop table count fuel (pc + 1) memory input output
          | some false =>
            match locate table count (e.parameters 3) with
            | some target => executorLoop table count fuel target memory input output
            | none => Outcome.undefined
          | none => Outcome.undefined
        | _, _ => Outcome.undefined
      else if e.opcode = OP_JUMP then
        match locate table count (e.parameters 0) with
        | some target => executorLoop table count fuel target memory input output
        | none => Outcome.undefined
      else if e.opcode = OP_END then Outcome.halted output memory
      else Outcome.undefined

/-- Modelled from the spec: the function `executor` declared in
`FunctionHeaders.h`, whose body is missing from the sources: the interpreter
loop on the emitted instructions and the memory array of the state, from the
first instruction, with the integers the input delivers. -/
def executor (s : State) (input : List Int) (fuel : Nat) : Outcome :=
  executorLoop s.intermediate_table s.intermediate_index fuel 0 s.memory_array input []

/-- The part of `main` from the first line of the file to the call of `executor`,
which is reached at the end of the file and through `goto ending`: what the
execution of the generated table leaves. -/
def compileAndExecute (file : List CStr) (u : State) (input : List Int) (fuel : Nat) :
    Outcome :=
  match generate file u with
  | Step.running s => executor s input fuel
  | Step.ended s => executor s input fuel
  | Step.undefined => Outcome.undefined

/-- The file `DATA x`, `START:`, `READ x`, `IF x GT 0`, `PRINT x`, `ELSE`,
`PRINT 0`, `ENDIF`, `END`. -/
def fileRoundTrip : List CStr :=
  [['D', 'A', 'T', 'A', ' ', 'x', Char.ofNat 10], startLine,
    ['R', 'E', 'A', 'D', ' ', 'x', Char.ofNat 10],
    ['I', 'F', ' ', 'x', ' ', 'G', 'T', ' ', '0', Char.ofNat 10],
    ['P', 'R', 'I', 'N', 'T', ' ', 'x', Char.ofNat 10],
    ['E', 'L', 'S', 'E', Char.ofNat 10],
    ['P', 'R', 'I', 'N', 'T', ' ', '0', Char.ofNat 10],
    ['E', 'N', 'D', 'I', 'F', Char.ofNat 10],
    ['E', 'N', 'D', Char.ofNat 10]]

/-- The file `DATA x`, `CONST z = 0`, `START:`, `READ x`, `IF x GT z`, `PRINT x`,
`ELSE`, `PRINT z`, `ENDIF`, `END`. -/
def fileRoundTripConst : List CStr :=
  [['D', 'A', 'T', 'A', ' ', 'x', Char.ofNat 10],
    ['C', 'O', 'N', 'S', 'T', ' ', 'z', ' ', '=', ' ', '0', Char.ofNat 10], startLine,
    ['R', 'E', 'A', 'D', ' ', 'x', Char.ofNat 10],
    ['I', 'F', ' ', 'x', ' ', 'G', 'T', ' ', 'z', Char.ofNat 10],
    ['P', 'R', 'I', 'N', 'T', ' ', 'x', Char.ofNat 10],
    ['E', 'L', 'S', 'E', Char.ofNat 10],
    ['P', 'R', 'I', 'N', 'T', ' ', 'z', Char.ofNat 10],
    ['E', 'N', 'D', 'I', 'F', Char.ofNat 10],
    ['E', 'N', 'D', Char.ofNat 10]]

/-- The lines of `fileRoundTrip` without the line `START:`. -/
def fileRoundTripBare : List CStr :=
  fileRoundTrip.filter (fun line => decide (line ≠ startLine))

/-! ## The invariant of the resolution stack -/

/-- The name a declaration declares: the second token of a `CONST` line, the text
before the first bracket in the second token of a `DATA` line. -/
def Declaration.name : Declaration → CStr
  | Declaration.CONST tokens => tokens 1
  | Declaration.DATA tokens => (tokens 1).takeWhile (fun c => c ≠ '[')

/-- The token rows of the declaration `CONST abcde = 1`. -/
def constLong : Nat → CStr
  | 0 => ['C', 'O', 'N', 'S', 'T']
  | 1 => ['a', 'b', 'c', 'd', 'e']
  | 2 => ['=']
  | 3 => ['1']
  | _ => []

/-- The token rows of the declaration `CONST abcdf = 2`. -/
def constLonger : Nat → CStr
  | 0 => ['C', 'O', 'N', 'S', 'T']
  | 1 => ['a', 'b', 'c', 'd', 'f']
  | 2 => ['=']
  | 3 => ['2']
  | _ => []

/-- The state the calls for `CONST abcde = 1`, `CONST abcdf = 2` leave from the
initial state of `main`. -/
def twoLongNames : State :=
  (declareAll [Declaration.CONST constLong, Declaration.CONST constLonger]
    (main_init zeroState)).getD zeroState

/-- The file `CONST abcde = 1`, `CONST abcdf = 2`, `START:`, `MOV AX, abcdf`. -/
def fileLongNames : List CStr :=
  [['C', 'O', 'N', 'S', 'T', ' ', 'a', 'b', 'c', 'd', 'e', ' ', '=', ' ', '1', Char.ofNat 10],
    ['C', 'O', 'N', 'S', 'T', ' ', 'a', 'b', 'c', 'd', 'f', ' ', '=', ' ', '2', Char.ofNat 10],
    startLine,
    ['M', 'O', 'V', ' ', 'A', 'X', ',', ' ', 'a', 'b', 'c', 'd', 'f', Char.ofNat 10]]

/-! ## Inputs for the register test and for shared prefixes -/

/-- The largest value of a C `int` of 32 bits. -/
abbrev INT_MAX : Int := 2147483647

/-- The characters the index loop of `getAddress` accumulates for an operand:
those between the first bracket and the closing one (none without a bracket). -/
def indexText (v : CStr) : CStr :=
  ((v.dropWhile (fun c => c ≠ '[')).drop 1).takeWhile (fun c => c ≠ ']')

/-- The file `DATA HXa`, `DATA CXb[4]`, `START:`, `PRINT HXa`, `PRINT CXb[2]`. -/
def fileShadowed : List CStr :=
  [['D', 'A', 'T', 'A', ' ', 'H', 'X', 'a', Char.ofNat 10],
    ['D', 'A', 'T', 'A', ' ', 'C', 'X', 'b', '[', '4', ']', Char.ofNat 10], startLine,
    ['P', 'R', 'I', 'N', 'T', ' ', 'H', 'X', 'a', Char.ofNat 10],
    ['P', 'R', 'I', 'N', 'T', ' ', 'C', 'X', 'b', '[', '2', ']', Char.ofNat 10]]

/-- The file `START:`, `PRINT AXE`, `READ GXy`, without a declaration. -/
def fileUndeclared : List CStr :=
  [startLine, ['P', 'R', 'I', 'N', 'T', ' ', 'A', 'X', 'E', Char.ofNat 10],
    ['R', 'E', 'A', 'D', ' ', 'G', 'X', 'y', Char.ofNat 10]]

/-- The number of symbol entries in the state a step leaves. -/
def Step.symbols (r : Step) : Option Nat :=
  r.state?.map (fun s => s.symbol_index)

/-- The token rows of the declaration `CONST abcd = 3`. -/
def constFour : Nat → CStr
  | 0 => ['C', 'O', 'N', 'S', 'T']
  | 1 => ['a', 'b', 'c', 'd']
  | 2 => ['=']
  | 3 => ['3']
  | _ => []

/-- The declarations `CONST abcde = 1`, `CONST abcdf = 2`, `CONST abcd = 3`. -/
def threeDeclarations : List Declaration :=
  [Declaration.CONST constLong, Declaration.CONST constLonger, Declaration.CONST constFour]

/-- The state the calls `threeDeclarations` leave from the initial state of `main`. -/
def threeLongNames : State :=
  (declareAll threeDeclarations (main_init zeroState)).getD zeroState

/-- The token rows of the declaration `CONST ab*cd = 1`. -/
def constStar : Nat → CStr
  | 0 => ['C', 'O', 'N', 'S', 'T']
  | 1 => ['a', 'b', '*', 'c', 'd']
  | 2 => ['=']
  | 3 => ['1']
  | _ => []

/-- The token rows of the declaration `CONST ab*c = 2`. -/
def constStarred : Nat → CStr
  | 0 => ['C', 'O', 'N', 'S', 'T']
  | 1 => ['a', 'b', '*', 'c']
  | 2 => ['=']
  | 3 => ['2']
  | _ => []

/-- The state the calls for `CONST ab*cd = 1`, `CONST ab*c = 2` leave from the
initial state of `main`. -/
def twoStarNames : State :=
  (declareAll [Declaration.CONST constStar, Declaration.CONST constStarred]
    (main_init zeroState)).getD zeroState

/-! # Theorems -/

/-! ## One line on two states that agree as `sameCode` -/

theorem sameCode.refl (s : State) : sameCode s s :=
  ⟨rfl, fun _ => rfl, fun _ => rfl, rfl, rfl, rfl, rfl, rfl⟩

theorem getAddress_congr {s t : State} (h : sameCode s t) (v : CStr) :
    getAddress s v = getAddress t v := by
  unfold getAddress
  rw [h.symbol_index, h.symbol_tab]

theorem setParam_instruc_no (e : intermediate_lang) (i : Fin 5) (v : Int) :
    (setParam e i v).instruc_no = e.instruc_no := rfl

theorem setParam_opcode (e : intermediate_lang) (i : Fin 5) (v : Int) :
    (setParam e i v).opcode = e.opcode := rfl

theorem mov_func_related {s t : State} (h : sameCode s t) (param : CStr) (n : Int) :
    Related n s t (Step.ofOption n (mov_func param n s))
      (Step.ofOption n (mov_func param n t)) := by
  unfold mov_func
  rw [← h.index]
  simp only [getAddress_congr h]
  split
  · exact Related.skip
  · split
    · exact Related.skip
    · split
      · exact Related.undefined
      · split
        · rename_i hc _ _ a b _ _
          refine Related.emit _ _ ?_ ?_ ?_ (by simpa using hc) <;> rfl
        · exact Related.undefined

theorem binaryOperations_func_related {s t : State} (h : sameCode s t) (opcode : Int)
    (param : CStr) (n : Int) :
    Related n s t (Step.ofOption n (binaryOperations_func opcode param n s))
      (Step.ofOption n (binaryOperations_func opcode param n t)) := by
  unfold binaryOperations_func
  rw [← h.index]
  simp only [getAddress_congr h]
  split
  · exact Related.skip
  · split
    · exact Related.skip
    · split
      · exact Related.skip
      · split
        · exact Related.undefined
        · split
          · rename_i hc _ _ _ _ _ _ _ _ _
            refine Related.emit _ _ ?_ ?_ ?_ (by simpa using hc) <;> rfl
          · exact Related.undefined

theorem read_func_related {s t : State} (h : sameCode s t) (param : CStr) (n : Int) :
    Related n s t (Step.ofOption n (read_func param n s))
      (Step.ofOption n (read_func param n t)) := by
  unfold read_func
  rw [← h.index]
  simp only [getAddress_congr h]
  split
  · exact Related.undefined
  · split
    · exact Related.undefined
    · rename_i hc _ _ _
      refine Related.emit _ _ ?_ ?_ ?_ (by simpa using hc) <;> rfl

theorem print_func_related {s t : State} (h : sameCode s t) (param : CStr) (n : Int) :
    Related n s t (Step.ofOption n (print_func param n s))
      (Step.ofOption n (print_func param n t)) := by
  unfold print_func
  rw [← h.index]
  simp only [getAddress_congr h]
  split
  · exact Related.undefined
  · split
    · exact Related.undefined
    · rename_i hc _ _ _
      refine Related.emit _ _ ?_ ?_ ?_ (by simpa using hc) <;> rfl

theorem jump_func_related {s t : State} (h : sameCode s t) (param : CStr) (n : Int) :
    Related n s t (Step.ofOption n (jump_func param n s))
      (Step.ofOption n (jump_func param n t)) := by
  unfold jump_func
  rw [← h.index]
  split
  · exact Related.undefined
  · rename_i hc
    refine Related.emit _ _ ?_ ?_ ?_ (by simpa using hc)
    · split <;> rfl
    · split <;> rfl
    · split <;> split <;> rfl

theorem setSlot_top (s : State) (k : Nat) (e : intermediate_lang) :
    (setSlot s k e).top = s.top := rfl

theorem setSlot_index (s : State) (k : Nat) (e : intermediate_lang) :
    (setSlot s k e).intermediate_index = s.intermediate_index := rfl

theorem else_func_related {s t : State} (h : sameCode s t) (n : Int) :
    Related n s t (Step.ofOption n (else_func n s)) (Step.ofOption n (else_func n t)) := by
  unfold else_func
  simp only [setSlot_top, setSlot_index, ← h.top, ← h.index]
  split
  · exact Related.undefined
  · rename_i hc
    by_cases hfull : s.top ≥ STACK_SIZE - 1
    · rw [if_pos hfull, if_pos hfull]
      refine Related.slot _ _ ?_ ?_ ?_ (by simpa using hfull) <;> rfl
    · rw [if_neg hfull, if_neg hfull]
      refine Related.opens _ _ ?_ ?_ ?_ ?_ (by simpa using hc) (by omega)
      · rfl
      · rfl
      · rfl
      · exact Or.inr rfl

theorem if_func_related {s t : State} (h : sameCode s t) (param : CStr) (n : Int) :
    Related n s t (Step.ofOption n (if_func param n s))
      (Step.ofOption n (if_func param n t)) := by
  unfold if_func
  simp only [setSlot_top, setSlot_index, ← h.top, ← h.index, getAddress_congr h]
  split
  · exact Related.skip
  · split
    · exact Related.undefined
    · split
      · exact Related.skip
      · split
        · exact Related.undefined
        · split
          · exact Related.skip
          · split
            · exact Related.undefined
            · split
              · exact Related.undefined
              · rename_i hc
                split
                · by_cases hfull : s.top ≥ STACK_SIZE - 1
                  · rw [if_pos hfull, if_pos hfull]
                    refine Related.slot _ _ ?_ ?_ ?_ (by simpa using hfull) <;> rfl
                  · rw [if_neg hfull, if_neg hfull]
                    refine Related.opens _ _ ?_ ?_ ?_ ?_ (by simpa using hc) (by omega)
                    · rfl
                    · rfl
                    · rfl
                    · exact Or.inl rfl
                · exact Related.undefined

theorem dispatch_related {s t : State} (h : sameCode s t) (instruction param : CStr)
    (n : Int) :
    Related n s t (dispatch instruction param n s) (dispatch instruction param n t) := by
  unfold dispatch
  simp only []
  split
  · exact mov_func_related h param n
  · split
    · exact binaryOperations_func_related h _ param n
    · split
      · split
        · exact else_func_related h n
        · exact jump_func_related h param n
      · split
        · exact if_func_related h param n
        · split
          · exact print_func_related h param n
          · split
            · exact read_func_related h param n
            · split
              · exact Related.endif
              · split
                · exact Related.ended
                · exact Related.skip

/-- A label line: the loop only records the label. -/
theorem processLine_label {raw name : CStr} (h : labelText raw = some name) (s : State) :
    processLine raw s = Step.running (recordLabel name (s.instruction_no + 1) s) := by
  unfold labelText at h
  unfold processLine
  simp only [] at h ⊢
  split at h
  · rename_i hc
    simp only [Option.some.injEq] at h
    rw [if_neg hc.1, if_pos hc.2, h]
  · exact absurd h (by simp)

/-- A line that is not a label does the same primitive thing to two states that
agree as `sameCode`. -/
theorem processLine_related {s t : State} (h : sameCode s t) {raw : CStr}
    (hl : labelText raw = none) :
    Related (s.instruction_no + 1) s t (processLine raw s) (processLine raw t) := by
  unfold labelText at hl
  unfold processLine
  simp only [← h.counter] at hl ⊢
  split
  · exact Related.undefined
  · rename_i hne
    split
    · rename_i hlast
      rw [if_pos ⟨hne, hlast⟩] at hl
      exact absurd hl (by simp)
    · split
      · exact Related.skip
      · exact dispatch_related h _ _ _

/-! ## The backward scan and `endif_func` -/

theorem scanBack_congr {a b : Nat → intermediate_lang}
    (h : ∀ i, (a i).instruc_no = (b i).instruc_no) (p : Int) (n : Nat) :
    scanBack a p n = scanBack b p n := by
  induction n with
  | zero => rfl
  | succ n ih => simp only [scanBack, h n, ih]

theorem scanBack_le (a : Nat → intermediate_lang) (p : Int) (n : Nat) :
    scanBack a p n ≤ n := by
  induction n with
  | zero => exact Nat.le_refl _
  | succ n ih =>
    simp only [scanBack]
    split
    · exact Nat.le_succ_of_le ih
    · exact Nat.le_refl _

theorem setSlot_number (s : State) (k : Nat) (i : Fin 5) (v : Int) (j : Nat) :
    ((setSlot s k (setParam (s.intermediate_table k) i v)).intermediate_table j).instruc_no
      = (s.intermediate_table j).instruc_no := by
  unfold setSlot
  by_cases hj : j = k
  · subst hj; simp [setParam]
  · simp [Function.update_noteq hj]

theorem setSlot_opcode (s : State) (k : Nat) (i : Fin 5) (v : Int) (j : Nat) :
    ((setSlot s k (setParam (s.intermediate_table k) i v)).intermediate_table j).opcode
      = (s.intermediate_table j).opcode := by
  unfold setSlot
  by_cases hj : j = k
  · subst hj; simp [setParam]
  · simp [Function.update_noteq hj]

theorem update_setParam_number (a : Nat → intermediate_lang) (k : Nat) (i : Fin 5) (v : Int)
    (j : Nat) : (Function.update a k (setParam (a k) i v) j).instruc_no = (a j).instruc_no := by
  by_cases hj : j = k
  · subst hj; simp [setParam]
  · simp [Function.update_noteq hj]

theorem update_setParam_opcode (a : Nat → intermediate_lang) (k : Nat) (i : Fin 5) (v : Int)
    (j : Nat) : (Function.update a k (setParam (a k) i v) j).opcode = (a j).opcode := by
  by_cases hj : j = k
  · subst hj; simp [setParam]
  · simp [Function.update_noteq hj]

theorem endif_func_sameCode {s t : State} (h : sameCode s t) (n : Int) :
    sameCode (endif_func n s) (endif_func n t) := by
  obtain ⟨si, stab, ssi, sst, sbi, sbt, sstk, stp, smem, smi, stok, sino⟩ := s
  obtain ⟨ti, ttab, tsi, tst, tbi, tbt, tstk, ttp, tmem, tmi, ttok, tino⟩ := t
  obtain ⟨hi, hn, ho, ht, hs, hsi, hst, hc⟩ := h
  simp only at hi hn ho ht hs hsi hst hc
  subst hi ht hs hsi hst hc
  have hscan : ∀ p k, scanBack stab p k = scanBack ttab p k := scanBack_congr hn
  have hn1 : ∀ k v j, (Function.update stab k (setParam (stab k) 0 v) j).instruc_no
      = (Function.update ttab k (setParam (ttab k) 0 v) j).instruc_no := by
    intro k v j
    rw [update_setParam_number, update_setParam_number]; exact hn j
  have ho1 : ∀ k v j, (Function.update stab k (setParam (stab k) 0 v) j).opcode
      = (Function.update ttab k (setParam (ttab k) 0 v) j).opcode := by
    intro k v j
    rw [update_setParam_opcode, update_setParam_opcode]; exact ho j
  have hscan1 : ∀ k v p m, scanBack (Function.update stab k (setParam (stab k) 0 v)) p m
      = scanBack (Function.update ttab k (setParam (ttab k) 0 v)) p m :=
    fun k v => scanBack_congr (hn1 k v)
  unfold endif_func
  simp only [setSlot, ← hscan, ← hscan1]
  by_cases c1 : stp < 0
  · simp only [if_pos c1]
    exact ⟨rfl, hn, ho, rfl, rfl, rfl, rfl, rfl⟩
  · simp only [if_neg c1]
    by_cases c2 : scanBack stab (sstk stp.toNat) si ≤ 0
    · simp only [if_pos c2]
      exact ⟨rfl, hn, ho, rfl, rfl, rfl, rfl, rfl⟩
    · simp only [if_neg c2, ← ho1]
      split_ifs
      · exact ⟨rfl, hn1 _ _, ho1 _ _, rfl, rfl, rfl, rfl, rfl⟩
      · exact ⟨rfl, hn1 _ _, ho1 _ _, rfl, rfl, rfl, rfl, rfl⟩
      · exact ⟨rfl, hn1 _ _, ho1 _ _, rfl, rfl, rfl, rfl, rfl⟩
      · refine ⟨rfl, fun j => ?_, fun j => ?_, rfl, rfl, rfl, rfl, rfl⟩
        · simp only [update_setParam_number]; exact hn j
        · simp only [update_setParam_opcode]; exact ho j

/-! ## Two runs that agree as `sameCode` stay in step -/

theorem update_pair_number {a b : Nat → intermediate_lang}
    (h : ∀ i, (a i).instruc_no = (b i).instruc_no) (k : Nat) {e f : intermediate_lang}
    (he : e.instruc_no = f.instruc_no) (j : Nat) :
    (Function.update a k e j).instruc_no = (Function.update b k f j).instruc_no := by
  by_cases hj : j = k
  · subst hj; simpa using he
  · simpa [Function.update_noteq hj] using h j

theorem update_pair_opcode {a b : Nat → intermediate_lang}
    (h : ∀ i, (a i).opcode = (b i).opcode) (k : Nat) {e f : intermediate_lang}
    (he : e.opcode = f.opcode) (j : Nat) :
    (Function.update a k e j).opcode = (Function.update b k f j).opcode := by
  by_cases hj : j = k
  · subst hj; simpa using he
  · simpa [Function.update_noteq hj] using h j

/-- The primitive effect of a line that is not a label keeps `sameCode`. -/
theorem Related.stepSame {n : Int} {s t : State} {r1 r2 : Step} (h : sameCode s t)
    (hr : Related n s t r1 r2) : StepSame r1 r2 := by
  cases hr with
  | undefined => exact True.intro
  | skip => exact ⟨h.index, h.number, h.opcode, h.top, h.stack, h.symbol_index, h.symbol_tab, rfl⟩
  | ended => exact ⟨h.index, h.number, h.opcode, h.top, h.stack, h.symbol_index, h.symbol_tab, rfl⟩
  | endif =>
    have h1 := endif_func_sameCode h n
    exact ⟨h1.index, h1.number, h1.opcode, h1.top, h1.stack, h1.symbol_index, h1.symbol_tab, rfl⟩
  | slot e f he hf hop hfull =>
    exact ⟨h.index, update_pair_number h.number _ (he.trans hf.symm),
      update_pair_opcode h.opcode _ hop, h.top, h.stack, h.symbol_index, h.symbol_tab, rfl⟩
  | emit e f he hf hop hcap =>
    exact ⟨rfl, update_pair_number h.number _ (he.trans hf.symm),
      update_pair_opcode h.opcode _ hop, h.top, h.stack, h.symbol_index, h.symbol_tab, rfl⟩
  | opens e f he hf hop hkind hcap hroom =>
    refine ⟨rfl, update_pair_number h.number _ (he.trans hf.symm),
      update_pair_opcode h.opcode _ hop, ?_, ?_, h.symbol_index, h.symbol_tab, rfl⟩
    · simp [push, setSlot, h.top]
    · simp [push, setSlot, h.top, h.stack]

/-- Recording a label keeps `sameCode` when both label tables have room. -/
theorem recordLabel_sameCode {s t : State} (h : sameCode s t) (name : CStr) (n : Int)
    (hs : s.blocks_index < BLOCK_SLOTS) (ht : t.blocks_index < BLOCK_SLOTS) :
    sameCode (recordLabel name n s) (recordLabel name n t) := by
  unfold recordLabel
  rw [if_neg (by omega), if_neg (by omega)]
  exact ⟨h.index, h.number, h.opcode, h.top, h.stack, h.symbol_index, h.symbol_tab, rfl⟩

/-! ## What a line leaves untouched -/

/-- The fields `endif_func` never writes, and the shape of what it writes. -/
theorem endif_func_frame (n : Int) (s : State) :
    (endif_func n s).intermediate_index = s.intermediate_index ∧
    (endif_func n s).blocks_index = s.blocks_index ∧
    (endif_func n s).block_tab = s.block_tab ∧
    (endif_func n s).stack = s.stack ∧
    (endif_func n s).instruction_no = s.instruction_no ∧
    (endif_func n s).top ≤ s.top ∧
    (∀ j, ((endif_func n s).intermediate_table j).instruc_no
      = (s.intermediate_table j).instruc_no) ∧
    (∀ j, ((endif_func n s).intermediate_table j).opcode = (s.intermediate_table j).opcode) := by
  unfold endif_func
  simp only []
  split_ifs <;>
    simp only [setSlot, update_setParam_number, update_setParam_opcode, le_refl, implies_true,
      and_self, true_and, and_true] <;> omega

/-- The label table after a line that is not a label is the one before it. -/
theorem Related.blocks {n : Int} {s t : State} {r1 r2 : Step} (hr : Related n s t r1 r2)
    {a : State} (ha : r1.state? = some a) :
    a.blocks_index = s.blocks_index ∧ a.block_tab = s.block_tab := by
  cases hr <;> simp only [Step.state?, Option.some.injEq] at ha <;> try subst ha
  all_goals first
    | exact ⟨rfl, rfl⟩
    | exact ⟨(endif_func_frame n s).2.1, (endif_func_frame n s).2.2.1⟩
    | exact absurd ha (by simp)

theorem run_nil (s : State) : run [] s = Step.running s := rfl

theorem countLabels_cons_some {raw name : CStr} (h : labelText raw = some name)
    (rest : List CStr) : countLabels (raw :: rest) = countLabels rest + 1 := by
  simp [countLabels, List.filter_cons, h]

theorem countLabels_cons_none {raw : CStr} (h : labelText raw = none)
    (rest : List CStr) : countLabels (raw :: rest) = countLabels rest := by
  simp [countLabels, List.filter_cons, h]

theorem recordLabel_blocks_index {s : State} (name : CStr) (n : Int)
    (hs : s.blocks_index < BLOCK_SLOTS) :
    (recordLabel name n s).blocks_index = s.blocks_index + 1 := by
  unfold recordLabel
  rw [if_neg (by omega)]

/-- Two runs of the same lines from states that agree as `sameCode` stay in step,
as long as neither label table fills up. -/
theorem run_sameCode (lines : List CStr) :
    ∀ s t : State, sameCode s t → t.blocks_index ≤ s.blocks_index →
      s.blocks_index + countLabels lines ≤ BLOCK_SLOTS → StepSame (run lines s) (run lines t) := by
  induction lines with
  | nil => intro s t h _ _; exact h
  | cons raw rest ih =>
    intro s t h hle hfit
    cases hl : labelText raw with
    | some name =>
      rw [countLabels_cons_some hl] at hfit
      have hs : s.blocks_index < BLOCK_SLOTS := by omega
      have ht : t.blocks_index < BLOCK_SLOTS := by omega
      simp only [run, processLine_label hl]
      rw [← h.counter]
      refine ih _ _ (recordLabel_sameCode h name _ hs ht) ?_ ?_
      · rw [recordLabel_blocks_index _ _ hs, recordLabel_blocks_index _ _ ht]; omega
      · rw [recordLabel_blocks_index _ _ hs]; omega
    | none =>
      rw [countLabels_cons_none hl] at hfit
      have hr := processLine_related h hl
      have hs := hr.stepSame h
      have hbs := fun a => hr.blocks (a := a)
      have hbt := fun a => (processLine_related (sameCode.refl t) hl).blocks (a := a)
      simp only [run]
      generalize processLine raw s = r1 at hr hs hbs
      generalize processLine raw t = r2 at hr hs hbt
      cases r1 <;> cases r2 <;> simp only [StepSame] at hs ⊢
      · rename_i a b
        refine ih a b hs ?_ ?_
        · rw [(hbs a rfl).1, (hbt b rfl).1]; exact hle
        · rw [(hbs a rfl).1]; exact hfit
      · exact hs

/-! ## Lines as `dispatch` sees them -/

theorem labelText_none_of_instructionOf {raw : CStr} {p : CStr × CStr}
    (h : instructionOf raw = some p) : labelText raw = none := by
  unfold instructionOf at h
  split at h
  · exact absurd h (by simp)
  · split at h
    · exact absurd h (by simp)
    · rename_i hl
      simpa using hl

/-- A line that is neither empty nor a label goes to `dispatch`. -/
theorem processLine_instruction {raw instruction param : CStr}
    (h : instructionOf raw = some (instruction, param)) (s : State) :
    processLine raw s = dispatch instruction param (s.instruction_no + 1) s := by
  have hl := labelText_none_of_instructionOf h
  unfold instructionOf at h
  unfold labelText at hl
  unfold processLine
  simp only [] at h hl ⊢
  split at h
  · exact absurd h (by simp)
  · rename_i hne
    rw [if_neg hne]
    rw [if_neg (by simpa [labelText] using hl)] at h
    split
    · rename_i hlast
      rw [if_pos ⟨hne, hlast⟩] at hl
      exact absurd hl (by simp)
    · rw [h]

/-- An `ENDIF` line runs `endif_func` and gives the line counter back. -/
theorem processLine_endif {raw : CStr} (h : isEndifLine raw = true) (s : State) :
    processLine raw s = Step.running
      { endif_func (s.instruction_no + 1) s with instruction_no := s.instruction_no } := by
  unfold isEndifLine at h
  cases hi : instructionOf raw with
  | none => simp [hi] at h
  | some p =>
    obtain ⟨instruction, param⟩ := p
    simp only [hi, Option.map_some', decide_eq_true_eq, Option.some.injEq] at h
    subst h
    rw [processLine_instruction hi]
    simp [dispatch, generate_opcode]

/-! ## Invariants of the loop -/

/-- Recording a label touches the label table and the line counter only. -/
theorem recordLabel_frame (name : CStr) (n : Int) (s : State) :
    (recordLabel name n s).stack = s.stack ∧ (recordLabel name n s).top = s.top ∧
    (recordLabel name n s).intermediate_index = s.intermediate_index ∧
    (recordLabel name n s).intermediate_table = s.intermediate_table ∧
    ((recordLabel name n s).instruction_no = n ∨
      (recordLabel name n s).instruction_no = n - 1) := by
  unfold recordLabel
  split <;> simp

/-- The primitive effect of a line that is not a label on one state. -/
theorem processLine_effect (s : State) {raw : CStr} (hl : labelText raw = none) :
    ∃ r2, Related (s.instruction_no + 1) s s (processLine raw s) r2 :=
  ⟨_, processLine_related (sameCode.refl s) hl⟩

theorem findFirst_none {p : Nat → Bool} (n : Nat) :
    ∀ start, (∀ i, start ≤ i → i < start + n → p i = false) → findFirst p start n = none := by
  induction n with
  | zero => intro _ _; rfl
  | succ n ih =>
    intro start h
    simp only [findFirst]
    rw [if_neg (by simp [h start (Nat.le_refl _) (by omega)])]
    exact ih (start + 1) (fun i h1 h2 => h i (by omega) (by omega))

theorem findFirst_some {p : Nat → Bool} (n : Nat) :
    ∀ start i, findFirst p start n = some i →
      start ≤ i ∧ i < start + n ∧ p i = true ∧ ∀ j, start ≤ j → j < i → p j = false := by
  induction n with
  | zero => intro _ _ h; exact absurd h (by simp [findFirst])
  | succ n ih =>
    intro start i h
    simp only [findFirst] at h
    split at h
    · rename_i hp
      simp only [Option.some.injEq] at h
      subst h
      exact ⟨Nat.le_refl _, by omega, hp, fun j h1 h2 => by omega⟩
    · rename_i hp
      obtain ⟨h1, h2, h3, h4⟩ := ih (start + 1) i h
      refine ⟨by omega, by omega, h3, fun j hj1 hj2 => ?_⟩
      by_cases hj : j = start
      · subst hj; simpa using hp
      · exact h4 j (by omega) hj2

theorem findFirst_exists {p : Nat → Bool} (n : Nat) :
    ∀ start k, start ≤ k → k < start + n → p k = true → ∃ i, findFirst p start n = some i := by
  induction n with
  | zero => intro _ _ h1 h2 _; omega
  | succ n ih =>
    intro start k h1 h2 hk
    simp only [findFirst]
    split
    · exact ⟨start, rfl⟩
    · rename_i hp
      have : k ≠ start := by
        intro h; subst h; exact hp hk
      exact ih (start + 1) k (by omega) (by omega) hk

/-- The label table only grows, and a line never rewrites a recorded label. -/
theorem processLine_blocks (raw : CStr) {s a : State}
    (ha : (processLine raw s).state? = some a) :
    s.blocks_index ≤ a.blocks_index ∧
      ∀ j, j < s.blocks_index → a.block_tab j = s.block_tab j := by
  cases hl : labelText raw with
  | some name =>
    rw [processLine_label hl] at ha
    simp only [Step.state?, Option.some.injEq] at ha
    subst ha
    unfold recordLabel
    split
    · exact ⟨Nat.le_refl _, fun _ _ => rfl⟩
    · refine ⟨Nat.le_succ _, fun j hj => ?_⟩
      simp only []
      rw [Function.update_noteq (Nat.ne_of_lt hj)]
  | none =>
    obtain ⟨r2, hr⟩ := processLine_effect s hl
    obtain ⟨h1, h2⟩ := hr.blocks ha
    exact ⟨by rw [h1], fun j _ => by rw [h2]⟩

theorem run_blocks (lines : List CStr) :
    ∀ {s a : State}, (run lines s).state? = some a →
      s.blocks_index ≤ a.blocks_index ∧
        ∀ j, j < s.blocks_index → a.block_tab j = s.block_tab j := by
  induction lines with
  | nil =>
    intro s a ha
    simp only [run, Step.state?, Option.some.injEq] at ha
    subst ha; exact ⟨Nat.le_refl _, fun _ _ => rfl⟩
  | cons raw rest ih =>
    intro s a ha
    simp only [run] at ha
    have hp := fun b => processLine_blocks raw (s := s) (a := b)
    generalize processLine raw s = r at ha hp
    cases r with
    | running b =>
      obtain ⟨h1, h2⟩ := hp b rfl
      obtain ⟨h3, h4⟩ := ih ha
      exact ⟨Nat.le_trans h1 h3, fun j hj => by rw [h4 j (by omega), h2 j hj]⟩
    | ended b => exact hp a ha
    | undefined => exact absurd ha (by simp [Step.state?])

/-- A `JUMP` line runs `jump_func`. -/
theorem processLine_jump {raw param : CStr}
    (h : instructionOf raw = some (['J', 'U', 'M', 'P'], param)) (s : State) :
    processLine raw s = Step.ofOption (s.instruction_no + 1)
      (jump_func param (s.instruction_no + 1) s) := by
  rw [processLine_instruction h]
  simp [dispatch, generate_opcode]

/-- The function `jump_func` on a label that the table holds at `i` and not before. -/
theorem jump_func_hit (param : CStr) (n : Int) (s : State) (i : Nat)
    (hcap : s.intermediate_index < INTERMEDIATE_SLOTS)
    (hfind : findFirst (fun i => decide ((s.block_tab i).name = param)) 0 s.blocks_index
      = some i) :
    jump_func param n s = some { setSlot s s.intermediate_index
      (setParam (setParam { s.intermediate_table s.intermediate_index with
        instruc_no := n, opcode := OP_JUMP } 0 (s.block_tab i).instr_no) 1 (-1)) with
      intermediate_index := s.intermediate_index + 1 } := by
  unfold jump_func
  rw [if_neg (by omega), hfind]

/-! ## Label lines and the numbering of instructions -/

/-- An instruction a line emits carries the line counter of its iteration. -/
theorem processLine_emitted_number (raw : CStr) {s a : State}
    (ha : (processLine raw s).state? = some a)
    (hidx : a.intermediate_index = s.intermediate_index + 1) :
    (a.intermediate_table s.intermediate_index).instruc_no = s.instruction_no + 1 := by
  cases hl : labelText raw with
  | some name =>
    rw [processLine_label hl] at ha
    simp only [Step.state?, Option.some.injEq] at ha
    subst ha
    rw [(recordLabel_frame name _ s).2.2.1] at hidx
    omega
  | none =>
    obtain ⟨r2, hr⟩ := processLine_effect s hl
    generalize processLine raw s = r at hr ha
    cases hr <;> simp only [Step.state?, Option.some.injEq] at ha <;> try subst ha
    · exact absurd ha (by simp)
    · simp only [] at hidx; omega
    · simp only [] at hidx; omega
    · simp only [] at hidx
      rw [(endif_func_frame _ s).1] at hidx; omega
    · simp only [setSlot] at hidx; omega
    · rename_i e f he hf hop hcap
      simpa [setSlot] using he
    · rename_i e f he hf hop hkind hcap hroom
      simpa [push, setSlot] using he

/-- Label lines (with room in the table) and `ENDIF` lines emit nothing and leave
the line counter where it was. -/
theorem run_labels_endifs (mid : List CStr) :
    ∀ s : State, (∀ raw ∈ mid, (labelText raw).isSome = true ∨ isEndifLine raw = true) →
      s.blocks_index + countLabels mid ≤ BLOCK_SLOTS →
      ∃ a, run mid s = Step.running a ∧ a.intermediate_index = s.intermediate_index ∧
        a.instruction_no = s.instruction_no := by
  induction mid with
  | nil => intro s _ _; exact ⟨s, rfl, rfl, rfl⟩
  | cons raw rest ih =>
    intro s hall hfit
    have hrest : ∀ raw ∈ rest, (labelText raw).isSome = true ∨ isEndifLine raw = true :=
      fun r hr => hall r (List.mem_cons_of_mem _ hr)
    cases hl : labelText raw with
    | some name =>
      rw [countLabels_cons_some hl] at hfit
      have hs : s.blocks_index < BLOCK_SLOTS := by omega
      obtain ⟨a, h1, h2, h3⟩ := ih (recordLabel name (s.instruction_no + 1) s) hrest
        (by rw [recordLabel_blocks_index _ _ hs]; omega)
      refine ⟨a, by simp only [run, processLine_label hl]; exact h1, ?_, ?_⟩
      · rw [h2, (recordLabel_frame name _ s).2.2.1]
      · rw [h3]; unfold recordLabel; rw [if_neg (by omega)]; simp
    | none =>
      rw [countLabels_cons_none hl] at hfit
      have he : isEndifLine raw = true := by
        rcases hall raw (List.mem_cons_self _ _) with h | h
        · rw [hl] at h; exact absurd h (by simp)
        · exact h
      obtain ⟨a, h1, h2, h3⟩ := ih
        { endif_func (s.instruction_no + 1) s with instruction_no := s.instruction_no } hrest
        (by simp only []; rw [(endif_func_frame _ s).2.1]; exact hfit)
      refine ⟨a, by simp only [run, processLine_endif he]; exact h1, ?_, ?_⟩
      · rw [h2]; exact (endif_func_frame _ s).1
      · rw [h3]

theorem numbers_congr {a b : State} (h : sameCode a b) : numbers a = numbers b := by
  unfold numbers
  rw [h.index]
  exact List.map_congr_left (fun i _ => h.number i)

theorem StepSame.numbers {r1 r2 : Step} (h : StepSame r1 r2) :
    r1.state?.map numbers = r2.state?.map numbers := by
  cases r1 <;> cases r2 <;> simp only [StepSame] at h <;>
    first
    | exact absurd h id
    | rfl
    | (simp only [Step.state?, Option.map_some', Option.some.injEq]; exact numbers_congr h)

/-! ## The symbol table -/

/-- What `const_func` and `data_func` do to the symbol table: one entry is added,
at the address `nextAddress`, with a size that is not negative. -/
theorem declare_symbol {d : Declaration} {s a : State} (h : declare d s = some a) :
    a.symbol_index = s.symbol_index + 1 ∧
    (∀ i, i < s.symbol_index → a.symbol_tab i = s.symbol_tab i) ∧
    (a.symbol_tab s.symbol_index).address = nextAddress s ∧
    (a.symbol_tab s.symbol_index).size = d.size ∧ 0 ≤ d.size := by
  cases d with
  | CONST tokens =>
    simp only [declare, const_func] at h
    split at h
    · exact absurd h (by simp)
    · split at h
      · exact absurd h (by simp)
      · simp only [Option.some.injEq] at h
        subst h
        refine ⟨rfl, fun i hi => ?_, ?_, ?_, ?_⟩
        · simp only []
          exact Function.update_noteq (Nat.ne_of_lt hi) _ _
        · simp
        · simp [Declaration.size]
        · simp [Declaration.size]
  | DATA tokens =>
    simp only [declare, data_func] at h
    split at h
    · exact absurd h (by simp)
    · split at h
      · exact absurd h (by simp)
      · simp only [Option.some.injEq] at h
        subst h
        refine ⟨rfl, fun i hi => ?_, ?_, ?_, ?_⟩
        · simp only []
          exact Function.update_noteq (Nat.ne_of_lt hi) _ _
        · simp
        · simp [Declaration.size]
        · simp only [Declaration.size]
          split <;> omega

theorem addressLaw_declare {d : Declaration} {s a : State} (hs : addressLaw s)
    (h : declare d s = some a) : addressLaw a := by
  obtain ⟨h1, h2, h3, h4, h5⟩ := declare_symbol h
  obtain ⟨l1, l2, l3⟩ := hs
  refine ⟨fun _ => ?_, fun i hi => ?_, fun i hi => ?_⟩
  · by_cases h0 : s.symbol_index = 0
    · have := h3
      rw [h0] at this
      rw [this]
      simp [nextAddress, h0]
    · rw [h2 0 (by omega)]
      exact l1 (by omega)
  · by_cases hi2 : i + 1 = s.symbol_index
    · rw [hi2, h3, h2 i (by omega)]
      unfold nextAddress
      rw [if_neg (by omega)]
      have : s.symbol_index - 1 = i := by omega
      rw [this]
      split <;> simp_all
    · rw [h2 (i + 1) (by omega), h2 i (by omega)]
      exact l2 i (by omega)
  · by_cases hi2 : i = s.symbol_index
    · rw [hi2, h4]; exact h5
    · rw [h2 i (by omega)]
      exact l3 i (by omega)

theorem addressLaw_declareAll (ds : List Declaration) :
    ∀ {s a : State}, addressLaw s → declareAll ds s = some a →
      addressLaw a ∧ a.symbol_index = s.symbol_index + ds.length := by
  induction ds with
  | nil =>
    intro s a hs h
    simp only [declareAll, Option.some.injEq] at h
    subst h
    exact ⟨hs, rfl⟩
  | cons d ds ih =>
    intro s a hs h
    simp only [declareAll] at h
    cases hd : declare d s with
    | none => rw [hd] at h; exact absurd h (by simp)
    | some s1 =>
      rw [hd] at h
      obtain ⟨h1, h2⟩ := ih (addressLaw_declare hs hd) h
      refine ⟨h1, ?_⟩
      rw [h2, (declare_symbol hd).1, List.length_cons]
      omega

/-- Under the address law the addresses increase strictly. -/
theorem addressLaw_increasing {s : State} (hs : addressLaw s) :
    ∀ j i, i < j → j < s.symbol_index →
      (s.symbol_tab i).address < (s.symbol_tab j).address := by
  obtain ⟨_, l2, l3⟩ := hs
  have hstep : ∀ i, i + 1 < s.symbol_index →
      (s.symbol_tab i).address < (s.symbol_tab (i + 1)).address := by
    intro i hi
    rw [l2 i hi]
    have := l3 i (by omega)
    split <;> omega
  intro j
  induction j with
  | zero => intro i hi _; omega
  | succ j ih =>
    intro i hi hj
    by_cases hij : i = j
    · subst hij; exact hstep i hj
    · exact lt_trans (ih i (by omega) (by omega)) (hstep j hj)

theorem Declaration.footprint_pos (d : Declaration) : 1 ≤ d.footprint := by
  cases d with
  | CONST tokens => simp [Declaration.footprint, Declaration.size]
  | DATA tokens =>
    simp only [Declaration.footprint, Declaration.size]
    split <;> split <;> omega

theorem footprint_sum_nonneg (ds : List Declaration) :
    0 ≤ (ds.map Declaration.footprint).sum := by
  induction ds with
  | nil => simp
  | cons d ds ih =>
    simp only [List.map_cons, List.sum_cons]
    have := d.footprint_pos
    omega

theorem nextAddress_declare {d : Declaration} {s a : State} (h : declare d s = some a) :
    nextAddress a = nextAddress s + d.footprint := by
  obtain ⟨h1, _, h3, h4, _⟩ := declare_symbol h
  have hidx : a.symbol_index - 1 = s.symbol_index := by omega
  have : nextAddress a = if (a.symbol_tab s.symbol_index).size ≠ 0 then
      (a.symbol_tab s.symbol_index).address + (a.symbol_tab s.symbol_index).size
      else (a.symbol_tab s.symbol_index).address + 1 := by
    unfold nextAddress
    rw [if_neg (by omega), hidx]
  rw [this, h3, h4]
  unfold Declaration.footprint
  split <;> rfl

theorem memory_index_declare {d : Declaration} {s a : State} (h : declare d s = some a)
    (h0 : 0 ≤ s.memory_index) (h1 : s.memory_index ≤ nextAddress s) :
    0 ≤ a.memory_index ∧ a.memory_index ≤ nextAddress a := by
  rw [nextAddress_declare h]
  cases d with
  | CONST tokens =>
    simp only [declare, const_func] at h
    split at h
    · exact absurd h (by simp)
    · split at h
      · exact absurd h (by simp)
      · simp only [Option.some.injEq] at h
        subst h
        simp only [Declaration.footprint, Declaration.size, CONST_VARIABLE_SIZE, ne_eq,
          not_true_eq_false, if_false]
        constructor <;> omega
  | DATA tokens =>
    simp only [declare, data_func] at h
    split at h
    · exact absurd h (by simp)
    · split at h
      · exact absurd h (by simp)
      · simp only [Option.some.injEq] at h
        subst h
        simp only [Declaration.footprint, Declaration.size]
        constructor
        · split <;> omega
        · split <;> split <;> omega

/-- The calls are all defined when the table has room for the entries, the name
parts fit their buffer and the reserved cells fit the memory array. -/
theorem declareAll_defined (ds : List Declaration) :
    ∀ s : State, s.symbol_index + ds.length ≤ SYMBOL_SLOTS → (∀ d ∈ ds, d.fits = true) →
      0 ≤ s.memory_index → s.memory_index ≤ nextAddress s →
      nextAddress s + (ds.map Declaration.footprint).sum ≤ MEMORY_SIZE →
      ∃ a, declareAll ds s = some a := by
  induction ds with
  | nil => intro s _ _ _ _ _; exact ⟨s, rfl⟩
  | cons d ds ih =>
    intro s hlen hfit h0 h1 hmem
    simp only [List.length_cons, List.map_cons, List.sum_cons] at hlen hmem
    have hpos := d.footprint_pos
    have hsum := footprint_sum_nonneg ds
    have hdef : ∃ s1, declare d s = some s1 := by
      cases d with
      | CONST tokens =>
        simp only [declare, const_func]
        rw [if_neg (by omega), if_neg (by simp only [not_not]; constructor <;> omega)]
        exact ⟨_, rfl⟩
      | DATA tokens =>
        have hf : Declaration.fits (Declaration.DATA tokens) = true :=
          hfit _ (List.mem_cons_self _ _)
        simp only [Declaration.fits, decide_eq_true_eq] at hf
        simp only [declare, data_func]
        rw [if_neg (by omega), if_neg (by simpa using hf)]
        exact ⟨_, rfl⟩
    obtain ⟨s1, hs1⟩ := hdef
    obtain ⟨m0, m1⟩ := memory_index_declare hs1 h0 h1
    obtain ⟨a, ha⟩ := ih s1 (by rw [(declare_symbol hs1).1]; omega)
      (fun d hd => hfit d (List.mem_cons_of_mem _ hd)) m0 m1
      (by rw [nextAddress_declare hs1]; omega)
    exact ⟨a, by simp only [declareAll, hs1]; exact ha⟩

/-! ## ENDIF with an ELSE on top of the stack -/

theorem scanBack_eq (a : Nat → intermediate_lang) (p : Int) (k : Nat)
    (hnum : (a k).instruc_no = p) :
    ∀ n, k < n → (∀ j, k < j → j < n → (a j).instruc_no ≠ p) → scanBack a p n = k + 1 := by
  intro n
  induction n with
  | zero => intro hk _; omega
  | succ n ih =>
    intro hk hlast
    simp only [scanBack]
    by_cases hkn : k = n
    · subst hkn
      rw [if_neg (by simpa using hnum)]
    · rw [if_pos (hlast n (by omega) (by omega))]
      exact ih (by omega) (fun j h1 h2 => hlast j h1 (by omega))

/-- When the number on top of the stack is that of an emitted JUMP (the last slot
with that number), `endif_func` pops it and stores the current instruction
number in parameter 0 of that JUMP, and does nothing else. -/
theorem endif_func_else_on_top (n : Int) (s : State) (k : Nat) (htop : 0 ≤ s.top)
    (hk : k < s.intermediate_index)
    (hnum : (s.intermediate_table k).instruc_no = s.stack s.top.toNat)
    (hlast : ∀ j, k < j → j < s.intermediate_index →
      (s.intermediate_table j).instruc_no ≠ s.stack s.top.toNat)
    (hop : (s.intermediate_table k).opcode = OP_JUMP) :
    endif_func n s =
      setSlot { s with top := s.top - 1 } k (setParam (s.intermediate_table k) 0 n) := by
  have hscan := scanBack_eq s.intermediate_table _ k hnum s.intermediate_index hk hlast
  unfold endif_func
  simp only [hscan]
  rw [if_neg (by omega), if_neg (by omega), if_pos]
  · rfl
  · simp only [setSlot, Nat.add_sub_cancel, Function.update_same]
    exact hop

/-! ## C1 to C5: backpatching at ENDIF -/

/-- C1, the code at the failing inputs.  After the well-formed sequences
`IF AX EQ BX`, `ELSE`, `ENDIF` and `IF AX EQ BX`, `ENDIF`, processed from the
initial state of `main`, parameter 3 of the emitted IF instruction still holds
`WILDCARD_VALUE`. -/
theorem wildcard_survives_endif (u : State) :
    ((run [lineIf, lineElse, lineEndif] (main_init u)).emitted = some 2 ∧
      (run [lineIf, lineElse, lineEndif] (main_init u)).opcodeAt 0 = some OP_IF ∧
      (run [lineIf, lineElse, lineEndif] (main_init u)).param 0 3 = some WILDCARD_VALUE) ∧
    ((run [lineIf, lineEndif] (main_init u)).emitted = some 1 ∧
      (run [lineIf, lineEndif] (main_init u)).opcodeAt 0 = some OP_IF ∧
      (run [lineIf, lineEndif] (main_init u)).param 0 3 = some WILDCARD_VALUE) :=
  ⟨⟨rfl, rfl, rfl⟩, ⟨rfl, rfl, rfl⟩⟩

/-- C2, the code at the failing input.  In `IF AX EQ BX`, `ELSE`, `IF AX EQ BX`,
`ENDIF`, `ENDIF` the outer ELSE is the JUMP numbered 2 and both ENDIF lines are
processed with instruction number 4; after the last one parameter 0 of that JUMP
still holds `WILDCARD_VALUE` instead of 4 (its parameter 3 was set to 4). -/
theorem nested_else_target_unset :
    (run [lineIf, lineElse, lineIf, lineEndif, lineEndif] (main_init zeroState)).numberAt 1
      = some 2 ∧
    (run [lineIf, lineElse, lineIf, lineEndif, lineEndif] (main_init zeroState)).opcodeAt 1
      = some OP_JUMP ∧
    (run [lineIf, lineElse, lineIf, lineEndif] (main_init zeroState)).state?.map
      (fun s => s.instruction_no + 1) = some 4 ∧
    (run [lineIf, lineElse, lineIf, lineEndif, lineEndif] (main_init zeroState)).param 1 0
      = some WILDCARD_VALUE ∧
    (run [lineIf, lineElse, lineIf, lineEndif, lineEndif] (main_init zeroState)).param 1 3
      = some 4 := by
  decide

/-- C3, the code at the failing input.  In `IF AX EQ BX`, `PRINT AX`, `ELSE`,
`PRINT AX`, `ENDIF` the IF is numbered 1 and the ELSE 3; after the ENDIF
parameter 3 of the IF holds `WILDCARD_VALUE`, not 3 + 1, while the ELSE's JUMP
got its target 5. -/
theorem if_false_target_unset (u : State) :
    (run [lineIf, linePrint, lineElse, linePrint, lineEndif] (main_init u)).numberAt 0
      = some 1 ∧
    (run [lineIf, linePrint, lineElse, linePrint, lineEndif] (main_init u)).numberAt 2
      = some 3 ∧
    (run [lineIf, linePrint, lineElse, linePrint, lineEndif] (main_init u)).opcodeAt 2
      = some OP_JUMP ∧
    (run [lineIf, linePrint, lineElse, linePrint, lineEndif] (main_init u)).param 2 0
      = some 5 ∧
    (run [lineIf, linePrint, lineElse, linePrint, lineEndif] (main_init u)).param 0 3
      = some WILDCARD_VALUE :=
  ⟨rfl, rfl, rfl, rfl, rfl⟩

/-- C4, the code at the failing input.  In `IF AX EQ BX`, `PRINT AX`, `ENDIF` the
IF is numbered 1 and the ENDIF is processed with instruction number 3; after it
parameter 3 of the IF holds `WILDCARD_VALUE`, not 3, and parameter 0 (the
address of the first operand, 0 for `AX`) holds 3. -/
theorem if_without_else_unpatched (u : State) :
    (run [lineIf, linePrint, lineEndif] (main_init u)).numberAt 0 = some 1 ∧
    (run [lineIf, linePrint] (main_init u)).state?.map (fun s => s.instruction_no + 1)
      = some 3 ∧
    (run [lineIf, linePrint] (main_init u)).param 0 0 = some 0 ∧
    (run [lineIf, linePrint, lineEndif] (main_init u)).param 0 3 = some WILDCARD_VALUE ∧
    (run [lineIf, linePrint, lineEndif] (main_init u)).param 0 0 = some 3 :=
  ⟨rfl, rfl, rfl, rfl, rfl⟩

/-- C5, the code at the failing input.  After the balanced sequence
`IF AX EQ BX`, `ELSE`, `ENDIF` from the empty stack, `top` is 0 and the stack
still holds the number of the IF, so the check after `ending:` reports unmatched
IF/ELSE statements. -/
theorem stack_not_empty_after_balanced (u : State) :
    (run [lineIf, lineElse, lineEndif] (main_init u)).topOf = some 0 ∧
    (run [lineIf, lineElse, lineEndif] (main_init u)).stackAt 0 = some 1 ∧
    (run [lineIf, lineElse, lineEndif] (main_init u)).state?.map unmatchedReported
      = some true :=
  ⟨rfl, rfl, rfl⟩

/-! ## C6: a JUMP to a label recorded earlier -/

/-- C6 (as amended).  A label line whose name has at most `LABEL_LENGTH - 1 = 4`
characters is recorded under that name; when a later line that `main` parses as
`JUMP` with that name is processed (the instruction table not being full), one
instruction is emitted, with opcode `OP_JUMP` and parameters `[t, -1]`, where `t`
is the instruction number of the first label table entry with that name: the
number this label line recorded, unless an earlier entry has the same name. -/
theorem jump_to_recorded_label (s0 s : State) (lab jmp name : CStr) (mid : List CStr)
    (hlab : labelText lab = some name) (hlen : name.length ≤ LABEL_LENGTH - 1)
    (hroom : s0.blocks_index < BLOCK_SLOTS)
    (hmid : run (lab :: mid) s0 = Step.running s)
    (hjmp : instructionOf jmp = some (['J', 'U', 'M', 'P'], name))
    (hcap : s.intermediate_index < INTERMEDIATE_SLOTS) :
    ∃ i s1, i ≤ s0.blocks_index ∧ (s.block_tab i).name = name ∧
      (∀ j, j < i → (s.block_tab j).name ≠ name) ∧
      (i = s0.blocks_index → (s.block_tab i).instr_no = s0.instruction_no + 1) ∧
      processLine jmp s = Step.running s1 ∧
      s1.intermediate_index = s.intermediate_index + 1 ∧
      (∀ j, j ≠ s.intermediate_index → s1.intermediate_table j = s.intermediate_table j) ∧
      (s1.intermediate_table s.intermediate_index).instruc_no = s.instruction_no + 1 ∧
      (s1.intermediate_table s.intermediate_index).opcode = OP_JUMP ∧
      (s1.intermediate_table s.intermediate_index).parameters 0 = (s.block_tab i).instr_no ∧
      (s1.intermediate_table s.intermediate_index).parameters 1 = -1 := by
  simp only [run, processLine_label hlab] at hmid
  have hmid2 : (run mid (recordLabel name (s0.instruction_no + 1) s0)).state? = some s := by
    rw [hmid]; rfl
  obtain ⟨hb1, hb2⟩ := run_blocks mid hmid2
  rw [recordLabel_blocks_index _ _ hroom] at hb1 hb2
  have hentry : s.block_tab s0.blocks_index =
      { name := name, instr_no := s0.instruction_no + 1 } := by
    rw [hb2 s0.blocks_index (by omega)]
    unfold recordLabel
    rw [if_neg (by omega)]
    simp only [Function.update_same, List.take_of_length_le hlen]
  have hp : (fun i => decide ((s.block_tab i).name = name)) s0.blocks_index = true := by
    simp [hentry]
  obtain ⟨i, hfind⟩ := findFirst_exists (p := fun i => decide ((s.block_tab i).name = name))
    s.blocks_index 0 s0.blocks_index (Nat.zero_le _)
    (by omega) hp
  obtain ⟨_, _, h3, h4⟩ := findFirst_some s.blocks_index 0 i hfind
  have hi : i ≤ s0.blocks_index := by
    by_contra hlt
    have := h4 s0.blocks_index (Nat.zero_le _) (by omega)
    simp [hentry] at this
  have hj := processLine_jump hjmp s
  rw [jump_func_hit name _ s i hcap hfind] at hj
  refine ⟨i, _, hi, by simpa using h3, fun j hj => by simpa using h4 j (Nat.zero_le _) hj,
    fun h => by rw [h, hentry], hj, ?_, ?_, ?_, ?_, ?_, ?_⟩
  · rfl
  · intro j hj
    simp only [setSlot]
    exact Function.update_noteq hj _ _
  · simp [setSlot, setParam]
  · simp [setSlot, setParam]
  · simp [setSlot, setParam]
  · simp [setSlot, setParam]

/-- A witness of C6 as amended: the label `LOOP`, then `JUMP LOOP`. -/
theorem jump_to_recorded_label_witness :
    ∃ i s1, i ≤ (main_init zeroState).blocks_index ∧
      ((recordLabel ['L', 'O', 'O', 'P'] 1 (main_init zeroState)).block_tab i).name
        = ['L', 'O', 'O', 'P'] ∧
      (∀ j, j < i →
        ((recordLabel ['L', 'O', 'O', 'P'] 1 (main_init zeroState)).block_tab j).name
          ≠ ['L', 'O', 'O', 'P']) ∧
      (i = (main_init zeroState).blocks_index →
        ((recordLabel ['L', 'O', 'O', 'P'] 1 (main_init zeroState)).block_tab i).instr_no
          = (main_init zeroState).instruction_no + 1) ∧
      processLine ['J', 'U', 'M', 'P', ' ', 'L', 'O', 'O', 'P']
        (recordLabel ['L', 'O', 'O', 'P'] 1 (main_init zeroState)) = Step.running s1 ∧
      s1.intermediate_index = 0 + 1 ∧
      (∀ j, j ≠ 0 → s1.intermediate_table j = (main_init zeroState).intermediate_table j) ∧
      (s1.intermediate_table 0).instruc_no = 0 + 1 ∧
      (s1.intermediate_table 0).opcode = OP_JUMP ∧
      (s1.intermediate_table 0).parameters 0
        = ((recordLabel ['L', 'O', 'O', 'P'] 1 (main_init zeroState)).block_tab i).instr_no ∧
      (s1.intermediate_table 0).parameters 1 = -1 :=
  jump_to_recorded_label (main_init zeroState)
    (recordLabel ['L', 'O', 'O', 'P'] 1 (main_init zeroState))
    ['L', 'O', 'O', 'P', ':'] ['J', 'U', 'M', 'P', ' ', 'L', 'O', 'O', 'P']
    ['L', 'O', 'O', 'P'] [] (by decide) (by decide) (by decide) rfl (by decide) (by decide)

/-- C6, counterexample: the label line `REPEAT:` is recorded as `REPE` with
instruction number 1, and the line `JUMP REPEAT` that follows is emitted with
target 0, not 1. -/
theorem jump_long_label_unresolved :
    (run [['R', 'E', 'P', 'E', 'A', 'T', ':'],
        ['J', 'U', 'M', 'P', ' ', 'R', 'E', 'P', 'E', 'A', 'T']]
        (main_init zeroState)).labelName 0 = some ['R', 'E', 'P', 'E'] ∧
    (run [['R', 'E', 'P', 'E', 'A', 'T', ':'],
        ['J', 'U', 'M', 'P', ' ', 'R', 'E', 'P', 'E', 'A', 'T']]
        (main_init zeroState)).labelAt 0 = some 1 ∧
    (run [['R', 'E', 'P', 'E', 'A', 'T', ':'],
        ['J', 'U', 'M', 'P', ' ', 'R', 'E', 'P', 'E', 'A', 'T']]
        (main_init zeroState)).emitted = some 1 ∧
    (run [['R', 'E', 'P', 'E', 'A', 'T', ':'],
        ['J', 'U', 'M', 'P', ' ', 'R', 'E', 'P', 'E', 'A', 'T']]
        (main_init zeroState)).opcodeAt 0 = some OP_JUMP ∧
    (run [['R', 'E', 'P', 'E', 'A', 'T', ':'],
        ['J', 'U', 'M', 'P', ' ', 'R', 'E', 'P', 'E', 'A', 'T']]
        (main_init zeroState)).param 0 0 = some 0 := by
  decide

/-! ## C7: a JUMP to a label the table does not hold -/

/-- C8 (as amended).  A label line met with room in the label table adds one entry,
named by the first `LABEL_LENGTH - 1` characters of the line without its colon,
whose instruction number is the line counter plus one; it emits nothing and
leaves the instruction table, its index, the stack and the line counter as they
were.  That number is the number of the next emitted instruction when only label
lines (with room) and ENDIF lines stand in between; and the instruction numbers
of everything emitted later are those of the run without the label line, as long
as the label table has room for every later label line. -/
theorem label_line (s : State) (raw name : CStr)
    (hlab : labelText raw = some name) (hroom : s.blocks_index < BLOCK_SLOTS) :
    ∃ s1, processLine raw s = Step.running s1 ∧
      s1.blocks_index = s.blocks_index + 1 ∧
      s1.block_tab s.blocks_index =
        { name := name.take (LABEL_LENGTH - 1), instr_no := s.instruction_no + 1 } ∧
      (∀ j, j ≠ s.blocks_index → s1.block_tab j = s.block_tab j) ∧
      s1.intermediate_index = s.intermediate_index ∧
      s1.intermediate_table = s.intermediate_table ∧
      s1.stack = s.stack ∧ s1.top = s.top ∧
      s1.instruction_no = s.instruction_no ∧
      (∀ mid : List CStr,
        (∀ l ∈ mid, (labelText l).isSome = true ∨ isEndifLine l = true) →
        s1.blocks_index + countLabels mid ≤ BLOCK_SLOTS →
        ∃ s2, run mid s1 = Step.running s2 ∧
          s2.intermediate_index = s.intermediate_index ∧
          ∀ (next : CStr) (s3 : State), (processLine next s2).state? = some s3 →
            s3.intermediate_index = s2.intermediate_index + 1 →
            (s3.intermediate_table s2.intermediate_index).instruc_no
              = (s1.block_tab s.blocks_index).instr_no) ∧
      (∀ rest : List CStr, s1.blocks_index + countLabels rest ≤ BLOCK_SLOTS →
        (run rest s1).state?.map numbers = (run rest s).state?.map numbers) := by
  have hs1 : recordLabel name (s.instruction_no + 1) s =
      { s with
        block_tab := Function.update s.block_tab s.blocks_index
          { name := name.take (LABEL_LENGTH - 1), instr_no := s.instruction_no + 1 }
        blocks_index := s.blocks_index + 1
        instruction_no := s.instruction_no + 1 - 1 } := by
    unfold recordLabel
    rw [if_neg (by omega)]
  refine ⟨_, processLine_label hlab s, ?_, ?_, ?_, ?_, ?_, ?_, ?_, ?_, ?_, ?_⟩
  · rw [hs1]
  · rw [hs1]; simp
  · intro j hj
    rw [hs1]
    exact Function.update_noteq hj _ _
  · rw [hs1]
  · rw [hs1]
  · rw [hs1]
  · rw [hs1]
  · rw [hs1]; simp
  · intro mid hall hfit
    obtain ⟨s2, h1, h2, h3⟩ := run_labels_endifs mid _ hall hfit
    refine ⟨s2, h1, by rw [h2, hs1], fun next s3 h4 h5 => ?_⟩
    rw [processLine_emitted_number next h4 h5, h3, hs1]
    simp
  · intro rest hfit
    refine (run_sameCode rest _ s ?_ ?_ hfit).numbers
    · rw [hs1]
      exact ⟨rfl, fun _ => rfl, fun _ => rfl, rfl, rfl, rfl, rfl, by simp⟩
    · rw [hs1]; exact Nat.le_succ _

/-- A witness of C8 as amended: the label line `L:` as the first line. -/
theorem label_line_witness :
    ∃ s1, processLine ['L', ':'] (main_init zeroState) = Step.running s1 ∧
      s1.blocks_index = 0 + 1 ∧
      s1.block_tab 0 = { name := ['L'], instr_no := 0 + 1 } ∧
      (∀ j, j ≠ 0 → s1.block_tab j = (main_init zeroState).block_tab j) ∧
      s1.intermediate_index = 0 ∧
      s1.intermediate_table = (main_init zeroState).intermediate_table ∧
      s1.stack = (main_init zeroState).stack ∧ s1.top = -1 ∧
      s1.instruction_no = 0 ∧
      (∀ mid : List CStr,
        (∀ l ∈ mid, (labelText l).isSome = true ∨ isEndifLine l = true) →
        s1.blocks_index + countLabels mid ≤ BLOCK_SLOTS →
        ∃ s2, run mid s1 = Step.running s2 ∧
          s2.intermediate_index = 0 ∧
          ∀ (next : CStr) (s3 : State), (processLine next s2).state? = some s3 →
            s3.intermediate_index = s2.intermediate_index + 1 →
            (s3.intermediate_table s2.intermediate_index).instruc_no
              = (s1.block_tab 0).instr_no) ∧
      (∀ rest : List CStr, s1.blocks_index + countLabels rest ≤ BLOCK_SLOTS →
        (run rest s1).state?.map numbers
          = (run rest (main_init zeroState)).state?.map numbers) :=
  label_line (main_init zeroState) ['L', ':'] ['L'] (by decide) (by decide)

set_option maxRecDepth 100000 in
/-- C8, counterexample.  First: after `L:`, `FOO`, `PRINT AX` the label holds
instruction number 1 while the next emitted instruction (the only one) has
number 2.  Second: after forty-nine labels, the lines `M:`, `PRINT AX` emit an
instruction numbered 1, but with the label line `L:` put before them (the table
then has room for `L` only) the same instruction is numbered 2. -/
theorem label_number_counterexample :
    ((run [['L', ':'], ['F', 'O', 'O'], ['P', 'R', 'I', 'N', 'T', ' ', 'A', 'X']]
        (main_init zeroState)).labelAt 0 = some 1 ∧
      (run [['L', ':'], ['F', 'O', 'O'], ['P', 'R', 'I', 'N', 'T', ' ', 'A', 'X']]
        (main_init zeroState)).emitted = some 1 ∧
      (run [['L', ':'], ['F', 'O', 'O'], ['P', 'R', 'I', 'N', 'T', ' ', 'A', 'X']]
        (main_init zeroState)).numberAt 0 = some 2) ∧
    ((run (fortyNineLabels ++ [['M', ':'], ['P', 'R', 'I', 'N', 'T', ' ', 'A', 'X']])
        (main_init zeroState)).state?.map numbers = some [1] ∧
      (run (fortyNineLabels ++ [['L', ':'], ['M', ':'],
          ['P', 'R', 'I', 'N', 'T', ' ', 'A', 'X']])
        (main_init zeroState)).state?.map numbers = some [2]) := by
  decide
/-! ## C9: the addresses of the symbol table -/

/-- C9.  For every sequence of `const_func` / `data_func` calls from an empty
symbol table: whenever the calls are all defined, the table holds one entry per
declaration, the first at `VARIABLE_MEMORY_START`, every later one at the
previous address plus the previous size (plus 1 when that size is 0), and the
addresses increase strictly; and the calls are all defined when the table has
room, the names fit and the reserved cells fit the memory array. -/
theorem symbol_addresses (ds : List Declaration) (s0 : State) (h0 : s0.symbol_index = 0) :
    (∀ s, declareAll ds s0 = some s →
      s.symbol_index = ds.length ∧
      (0 < s.symbol_index → (s.symbol_tab 0).address = VARIABLE_MEMORY_START) ∧
      (∀ i, i + 1 < s.symbol_index →
        (s.symbol_tab (i + 1)).address = (s.symbol_tab i).address +
          (if (s.symbol_tab i).size ≠ 0 then (s.symbol_tab i).size else 1)) ∧
      (∀ i j, i < j → j < s.symbol_index →
        (s.symbol_tab i).address < (s.symbol_tab j).address)) ∧
    (ds.length ≤ SYMBOL_SLOTS → (∀ d ∈ ds, d.fits = true) →
      0 ≤ s0.memory_index → s0.memory_index ≤ VARIABLE_MEMORY_START →
      VARIABLE_MEMORY_START + (ds.map Declaration.footprint).sum ≤ MEMORY_SIZE →
      ∃ s, declareAll ds s0 = some s) := by
  have hlaw : addressLaw s0 :=
    ⟨fun h => by omega, fun i hi => by omega, fun i hi => by omega⟩
  constructor
  · intro s hs
    obtain ⟨h1, h2⟩ := addressLaw_declareAll ds hlaw hs
    exact ⟨by omega, h1.1, h1.2.1, fun i j hij hj => addressLaw_increasing h1 j i hij hj⟩
  · intro hlen hfit hm0 hm1 hmem
    have hn : nextAddress s0 = VARIABLE_MEMORY_START := by simp [nextAddress, h0]
    exact declareAll_defined ds s0 (by omega) hfit hm0 (by rw [hn]; exact hm1)
      (by rw [hn]; exact hmem)

/-- A witness of C9: `CONST a = 5`, `DATA y[3]`, `DATA x`, `CONST a = 5` from the
initial state of `main`. -/
theorem symbol_addresses_witness :
    ∃ s, declareAll sampleDeclarations (main_init zeroState) = some s ∧
      s.symbol_index = 4 ∧
      (s.symbol_tab 0).address = 8 ∧
      (s.symbol_tab 2).address = (s.symbol_tab 1).address +
        (if (s.symbol_tab 1).size ≠ 0 then (s.symbol_tab 1).size else 1) ∧
      (s.symbol_tab 0).address < (s.symbol_tab 3).address := by
  obtain ⟨s, hs⟩ := (symbol_addresses sampleDeclarations (main_init zeroState) rfl).2
    (by decide) (by decide) (by decide) (by decide) (by decide)
  obtain ⟨h1, h2, h3, h4⟩ :=
    (symbol_addresses sampleDeclarations (main_init zeroState) rfl).1 s hs
  have h5 : s.symbol_index = 4 := h1
  exact ⟨s, hs, h5, h2 (by omega), h3 1 (by omega), h4 0 3 (by omega) (by omega)⟩
/-! ## C10: where `const_func` writes the value -/

/-- C10, the code at the failing input.  With `CONST a = 5` as the first
declaration the symbol entry gets address 8, the value 5 is written into memory
cell 7 and the cell at the symbol address keeps what it held before; with
`DATA x` in front, the entry gets address 9 and the value is in cell 9. -/
theorem const_value_misplaced (u : State) :
    constantCells (declarations [lineConst] (main_init u)) 0 8
      = some (8, 5, u.memory_array 8) ∧
    constantCells (declarations [lineData, lineConst] (main_init u)) 1 9
      = some (9, u.memory_array 7, 5) :=
  ⟨rfl, rfl⟩

/-! ## Address resolution through the symbol table -/

theorem takeWhile_all {p : Char → Bool} (a : CStr) (h : ∀ c ∈ a, p c = true) :
    a.takeWhile p = a := by
  induction a with
  | nil => rfl
  | cons c a ih =>
    rw [List.takeWhile_cons, if_pos (h c (List.mem_cons_self _ _)),
      ih (fun d hd => h d (List.mem_cons_of_mem _ hd))]

theorem takeWhile_stop {p : Char → Bool} (a : CStr) (x : Char) (b : CStr)
    (h : ∀ c ∈ a, p c = true) (hx : p x = false) : (a ++ x :: b).takeWhile p = a := by
  induction a with
  | nil => simp [List.takeWhile, hx]
  | cons c a ih =>
    rw [List.cons_append, List.takeWhile_cons, if_pos (h c (List.mem_cons_self _ _)),
      ih (fun d hd => h d (List.mem_cons_of_mem _ hd))]

theorem dropWhile_stop {p : Char → Bool} (a : CStr) (x : Char) (b : CStr)
    (h : ∀ c ∈ a, p c = true) (hx : p x = false) : (a ++ x :: b).dropWhile p = x :: b := by
  induction a with
  | nil => simp [List.dropWhile, hx]
  | cons c a ih =>
    rw [List.cons_append, List.dropWhile_cons, if_pos (h c (List.mem_cons_self _ _))]
    exact ih (fun d hd => h d (List.mem_cons_of_mem _ hd))

theorem foldl_digits (cs : CStr) (h : ∀ c ∈ cs, isdigit c = true) :
    ∀ acc : Int, cs.foldl (fun acc c => acc * 10 + digitOf c) acc
      = acc * 10 ^ cs.length + (decimalValue cs : Int) := by
  induction cs with
  | nil => intro acc; simp [decimalValue]
  | cons c cs ih =>
    intro acc
    have hc : 48 ≤ c.toNat := by
      have := h c (List.mem_cons_self _ _)
      simp only [isdigit, Bool.and_eq_true, decide_eq_true_eq] at this
      exact this.1
    simp only [List.foldl_cons, List.length_cons, decimalValue]
    rw [ih (fun d hd => h d (List.mem_cons_of_mem _ hd))]
    simp only [digitOf]
    push_cast [Nat.cast_sub hc]
    ring

/-- On a string of digits the digit loop of the C code computes the decimal value. -/
theorem accumulate_digits (cs : CStr) (h : ∀ c ∈ cs, isdigit c = true) :
    accumulate cs = (decimalValue cs : Int) := by
  unfold accumulate
  rw [foldl_digits cs h 0]
  simp

/-- Outside the register test, and when the name part is not empty and fits
`temp`, `getAddress` is the linear scan for the name part. -/
theorem getAddress_scan (s : State) (v : CStr) (hreg : isRegisterName v = false)
    (hne : namePart v ≠ []) (hlen : (namePart v).length < VARIABLE_LENGTH) :
    getAddress s v =
      match findFirst (fun i => decide ((s.symbol_tab i).variable_name = namePart v)) 0
          s.symbol_index with
      | some i =>
        if '[' ∈ v then
          some ((s.symbol_tab i).address +
            accumulate (((v.dropWhile (fun c => c ≠ '[')).drop 1).takeWhile (fun c => c ≠ ']')))
        else some (s.symbol_tab i).address
      | none => some (-1) := by
  unfold getAddress
  rw [if_neg (by simp [hreg])]
  unfold namePart at hne hlen ⊢
  by_cases hb : '[' ∈ v
  · simp only [hb, decide_True, if_true] at hne hlen ⊢
    rw [if_neg hne, if_neg (by omega)]
  · simp only [hb, decide_False, if_false, Bool.false_eq_true] at hne hlen ⊢
    rw [if_neg hne, if_neg (by omega)]

theorem findFirst_name (s : State) (name : CStr) (i : Nat) (hi : i < s.symbol_index)
    (hname : (s.symbol_tab i).variable_name = name) :
    ∃ j, j ≤ i ∧ (s.symbol_tab j).variable_name = name ∧
      (∀ k, k < j → (s.symbol_tab k).variable_name ≠ name) ∧
      findFirst (fun i => decide ((s.symbol_tab i).variable_name = name)) 0 s.symbol_index
        = some j := by
  obtain ⟨j, hj⟩ := findFirst_exists (p := fun i => decide ((s.symbol_tab i).variable_name = name))
    s.symbol_index 0 i (Nat.zero_le _) (by omega) (by simpa using hname)
  obtain ⟨_, _, h3, h4⟩ := findFirst_some s.symbol_index 0 j hj
  refine ⟨j, ?_, by simpa using h3, fun k hk => by simpa using h4 k (Nat.zero_le _) hk, hj⟩
  by_contra hlt
  have := h4 i (Nat.zero_le _) (by omega)
  simp [hname] at this

/-! ## C11: operands the symbol table holds -/

/-- Away from the register test.  In every state whose symbol names fit their
`char[VARIABLE_LENGTH]` field, for every operand whose first two characters fail
the register test of `getAddress`: a bare name (no bracket, no dereference
marker) that names an entry resolves to the address of the first entry with that
name; and `name[K]`, with `K` a string of decimal digits whose value and whose
sums with the addresses of the table lie within `int`, and `name` naming an
entry, resolves to the address of the first entry named `name` plus the decimal
value of `K`. -/
theorem getAddress_found (s : State)
    (hfield : ∀ i, i < s.symbol_index →
      (s.symbol_tab i).variable_name.length < VARIABLE_LENGTH) :
    (∀ (v : CStr) (i : Nat), isRegisterName v = false → v ≠ [] → '[' ∉ v → '*' ∉ v →
      i < s.symbol_index → (s.symbol_tab i).variable_name = v →
      ∃ j, j ≤ i ∧ (s.symbol_tab j).variable_name = v ∧
        (∀ k, k < j → (s.symbol_tab k).variable_name ≠ v) ∧
        getAddress s v = some (s.symbol_tab j).address) ∧
    (∀ (name digits : CStr) (i : Nat),
      isRegisterName (name ++ '[' :: (digits ++ [']'])) = false → name ≠ [] → '[' ∉ name →
      (∀ c ∈ digits, isdigit c = true) → (decimalValue digits : Int) ≤ INT_MAX →
      (∀ k, k < s.symbol_index →
        -INT_MAX - 1 ≤ (s.symbol_tab k).address + (decimalValue digits : Int) ∧
        (s.symbol_tab k).address + (decimalValue digits : Int) ≤ INT_MAX) →
      i < s.symbol_index → (s.symbol_tab i).variable_name = name →
      ∃ j, j ≤ i ∧ (s.symbol_tab j).variable_name = name ∧
        (∀ k, k < j → (s.symbol_tab k).variable_name ≠ name) ∧
        getAddress s (name ++ '[' :: (digits ++ [']']))
          = some ((s.symbol_tab j).address + (decimalValue digits : Int))) := by
  constructor
  · intro v i hreg hne hb hs hi hname
    have hpart : namePart v = v := by
      unfold namePart
      rw [if_neg hb]
      exact takeWhile_all v (fun c hc => by
        simp only [ne_eq, decide_not, Bool.not_eq_true', decide_eq_false_iff_not]
        intro h; exact hs (h ▸ hc))
    obtain ⟨j, hj, hjn, hfirst, hfind⟩ := findFirst_name s v i hi hname
    refine ⟨j, hj, hjn, hfirst, ?_⟩
    rw [getAddress_scan s v hreg (by rw [hpart]; exact hne)
      (by rw [hpart, ← hname]; exact hfield i hi), hpart, hfind]
    simp only [hb, if_false]
  · intro name digits i hreg hne hb hd _ _ hi hname
    have hin : '[' ∈ name ++ '[' :: (digits ++ [']']) := by simp
    have hp : ∀ c ∈ name, (fun c => decide (c ≠ '[')) c = true := by
      intro c hc
      simp only [ne_eq, decide_not, Bool.not_eq_true', decide_eq_false_iff_not]
      intro h; exact hb (h ▸ hc)
    have hpart : namePart (name ++ '[' :: (digits ++ [']'])) = name := by
      unfold namePart
      rw [if_pos hin]
      exact takeWhile_stop name '[' _ hp (by simp)
    have hidx : (((name ++ '[' :: (digits ++ [']'])).dropWhile (fun c => c ≠ '[')).drop 1).takeWhile
        (fun c => c ≠ ']') = digits := by
      rw [dropWhile_stop name '[' _ hp (by simp)]
      simp only [List.drop_succ_cons, List.drop_zero]
      refine takeWhile_stop digits ']' [] (fun c hc => ?_) (by simp)
      have := hd c hc
      simp only [ne_eq, decide_not, Bool.not_eq_true', decide_eq_false_iff_not]
      intro h
      rw [h] at this
      exact absurd this (by decide)
    obtain ⟨j, hj, hjn, hfirst, hfind⟩ := findFirst_name s name i hi hname
    refine ⟨j, hj, hjn, hfirst, ?_⟩
    rw [getAddress_scan s _ hreg (by rw [hpart]; exact hne)
      (by rw [hpart, ← hname]; exact hfield i hi), hpart, hfind]
    simp only [hin, if_true, hidx, accumulate_digits digits hd]

/-- An instance of `getAddress_found`: in the table `x`, `arr`, `x` the operand `x` resolves to the
first `x` and the operand `arr[2]` to the address of `arr` plus 2. -/
theorem getAddress_found_witness :
    (∃ j, j ≤ 2 ∧ (sampleTable.symbol_tab j).variable_name = ['x'] ∧
      (∀ k, k < j → (sampleTable.symbol_tab k).variable_name ≠ ['x']) ∧
      getAddress sampleTable ['x'] = some (sampleTable.symbol_tab j).address) ∧
    (∃ j, j ≤ 1 ∧ (sampleTable.symbol_tab j).variable_name = ['a', 'r', 'r'] ∧
      (∀ k, k < j → (sampleTable.symbol_tab k).variable_name ≠ ['a', 'r', 'r']) ∧
      getAddress sampleTable (['a', 'r', 'r'] ++ '[' :: (['2'] ++ [']']))
        = some ((sampleTable.symbol_tab j).address + (decimalValue ['2'] : Int))) :=
  ⟨(getAddress_found sampleTable (by decide)).1 ['x'] 2 (by decide) (by decide) (by decide)
      (by decide) (by decide) (by decide),
    (getAddress_found sampleTable (by decide)).2 ['a', 'r', 'r'] ['2'] 1 (by decide) (by decide)
      (by decide) (by decide) (by decide) (by decide) (by decide) (by decide)⟩

/-- C11, the code at the failing input.  After `DATA HXa` (address 8) and
`DATA CXb[4]` (address 9, size 4) the operands `HXa` and `CXb[2]`, which are no
register names and name the two entries, resolve to 7 and 2, the addresses of
the registers `HX` and `CX`, where the table gives 8 and 9 + 2: `PRINT HXa` and
`PRINT CXb[2]` are emitted with the parameters 7 and 2. -/
theorem declared_name_resolves_as_register :
    (generate fileShadowed zeroState).symbolAt 0 = some (['H', 'X', 'a'], 8, 1) ∧
    (generate fileShadowed zeroState).symbolAt 1 = some (['C', 'X', 'b'], 9, 4) ∧
    (generate fileShadowed zeroState).address ['H', 'X', 'a'] = some 7 ∧
    (generate fileShadowed zeroState).address ['C', 'X', 'b', '[', '2', ']'] = some 2 ∧
    (generate fileShadowed zeroState).emitted = some 2 ∧
    (generate fileShadowed zeroState).opcodeAt 0 = some OP_PRINT ∧
    (generate fileShadowed zeroState).param 0 0 = some 7 ∧
    (generate fileShadowed zeroState).opcodeAt 1 = some OP_PRINT ∧
    (generate fileShadowed zeroState).param 1 0 = some 2 := by
  decide

/-! ## C12: register operands -/

theorem isRegisterName_pair (c : Char) (h1 : 65 ≤ c.toNat) (h2 : c.toNat ≤ 72) :
    isRegisterName [c, 'X'] = true := by
  simp [isRegisterName, h1, h2]

/-- C12.  For every letter `c` from `A` to `H` and every state, `getAddress` on the
two-character operand `cX` returns `c - 'A'`, a value from 0 to 7, whatever the
symbol table holds; and two different letters give two different addresses. -/
theorem register_addresses (s : State) (c : Char) (h1 : 65 ≤ c.toNat) (h2 : c.toNat ≤ 72) :
    getAddress s [c, 'X'] = some ((c.toNat : Int) - 65) ∧
    0 ≤ (c.toNat : Int) - 65 ∧ (c.toNat : Int) - 65 ≤ 7 ∧
    ∀ d : Char, 65 ≤ d.toNat → d.toNat ≤ 72 →
      getAddress s [d, 'X'] = getAddress s [c, 'X'] → d = c := by
  have hc : getAddress s [c, 'X'] = some ((c.toNat : Int) - 65) := by
    unfold getAddress
    rw [if_pos (isRegisterName_pair c h1 h2)]
    rfl
  refine ⟨hc, by omega, by omega, fun d hd1 hd2 hd => ?_⟩
  have hdd : getAddress s [d, 'X'] = some ((d.toNat : Int) - 65) := by
    unfold getAddress
    rw [if_pos (isRegisterName_pair d hd1 hd2)]
    rfl
  rw [hc, hdd] at hd
  simp only [Option.some.injEq] at hd
  have : d.toNat = c.toNat := by omega
  rw [← Char.ofNat_toNat d, this, Char.ofNat_toNat]

/-- A witness of C12: the eight register names. -/
theorem register_addresses_witness :
    getAddress zeroState ['A', 'X'] = some 0 ∧ getAddress zeroState ['B', 'X'] = some 1 ∧
    getAddress zeroState ['C', 'X'] = some 2 ∧ getAddress zeroState ['D', 'X'] = some 3 ∧
    getAddress zeroState ['E', 'X'] = some 4 ∧ getAddress zeroState ['F', 'X'] = some 5 ∧
    getAddress zeroState ['G', 'X'] = some 6 ∧ getAddress zeroState ['H', 'X'] = some 7 :=
  ⟨(register_addresses zeroState 'A' (by decide) (by decide)).1,
    (register_addresses zeroState 'B' (by decide) (by decide)).1,
    (register_addresses zeroState 'C' (by decide) (by decide)).1,
    (register_addresses zeroState 'D' (by decide) (by decide)).1,
    (register_addresses zeroState 'E' (by decide) (by decide)).1,
    (register_addresses zeroState 'F' (by decide) (by decide)).1,
    (register_addresses zeroState 'G' (by decide) (by decide)).1,
    (register_addresses zeroState 'H' (by decide) (by decide)).1⟩

/-! ## C15: the opcode table -/

/-- C15.  The function `generate_opcode` gives each mnemonic its opcode,
`MOV` 1, `ADD` 3, `SUB` 4, `MUL` 5, `JUMP` and `ELSE` 6, `IF` 7, `EQ` 8, `LT` 9,
`GT` 10, `LTEQ` 11, `GTEQ` 12, `PRINT` 13, `READ` 14, `ENDIF` 15, `END` 16, and
-1 to every other string; so two strings with the same opcode other than -1 are
the same mnemonic, or are `JUMP` and `ELSE`. -/
theorem opcode_table :
    generate_opcode ['M', 'O', 'V'] = 1 ∧ generate_opcode ['A', 'D', 'D'] = 3 ∧
    generate_opcode ['S', 'U', 'B'] = 4 ∧ generate_opcode ['M', 'U', 'L'] = 5 ∧
    generate_opcode ['J', 'U', 'M', 'P'] = 6 ∧ generate_opcode ['E', 'L', 'S', 'E'] = 6 ∧
    generate_opcode ['I', 'F'] = 7 ∧ generate_opcode ['E', 'Q'] = 8 ∧
    generate_opcode ['L', 'T'] = 9 ∧ generate_opcode ['G', 'T'] = 10 ∧
    generate_opcode ['L', 'T', 'E', 'Q'] = 11 ∧ generate_opcode ['G', 'T', 'E', 'Q'] = 12 ∧
    generate_opcode ['P', 'R', 'I', 'N', 'T'] = 13 ∧ generate_opcode ['R', 'E', 'A', 'D'] = 14 ∧
    generate_opcode ['E', 'N', 'D', 'I', 'F'] = 15 ∧ generate_opcode ['E', 'N', 'D'] = 16 ∧
    (∀ w : CStr,
      w ∉ [['M', 'O', 'V'], ['A', 'D', 'D'], ['S', 'U', 'B'], ['M', 'U', 'L'],
        ['J', 'U', 'M', 'P'], ['E', 'L', 'S', 'E'], ['I', 'F'], ['E', 'Q'], ['L', 'T'],
        ['G', 'T'], ['L', 'T', 'E', 'Q'], ['G', 'T', 'E', 'Q'], ['P', 'R', 'I', 'N', 'T'],
        ['R', 'E', 'A', 'D'], ['E', 'N', 'D', 'I', 'F'], ['E', 'N', 'D']] →
      generate_opcode w = -1) ∧
    (∀ v w : CStr, generate_opcode v = generate_opcode w → generate_opcode v ≠ -1 →
      v = w ∨ (generate_opcode v = 6 ∧ generate_opcode w = 6)) := by
  have hother : ∀ w : CStr,
      w ∉ [['M', 'O', 'V'], ['A', 'D', 'D'], ['S', 'U', 'B'], ['M', 'U', 'L'],
        ['J', 'U', 'M', 'P'], ['E', 'L', 'S', 'E'], ['I', 'F'], ['E', 'Q'], ['L', 'T'],
        ['G', 'T'], ['L', 'T', 'E', 'Q'], ['G', 'T', 'E', 'Q'], ['P', 'R', 'I', 'N', 'T'],
        ['R', 'E', 'A', 'D'], ['E', 'N', 'D', 'I', 'F'], ['E', 'N', 'D']] →
      generate_opcode w = -1 := by
    intro w hw
    simp only [List.mem_cons, List.mem_singleton, List.not_mem_nil, or_false, not_or] at hw
    obtain ⟨h1, h2, h3, h4, h5, h6, h7, h8, h9, h10, h11, h12, h13, h14, h15, h16⟩ := hw
    unfold generate_opcode
    simp only [h1, h2, h3, h4, h5, h6, h7, h8, h9, h10, h11, h12, h13, h14, h15, h16,
      if_false, or_self]
  repeat' apply And.intro
  any_goals decide
  · exact hother
  intro v w h hne
  have hv : v ∈ [['M', 'O', 'V'], ['A', 'D', 'D'], ['S', 'U', 'B'], ['M', 'U', 'L'],
      ['J', 'U', 'M', 'P'], ['E', 'L', 'S', 'E'], ['I', 'F'], ['E', 'Q'], ['L', 'T'],
      ['G', 'T'], ['L', 'T', 'E', 'Q'], ['G', 'T', 'E', 'Q'], ['P', 'R', 'I', 'N', 'T'],
      ['R', 'E', 'A', 'D'], ['E', 'N', 'D', 'I', 'F'], ['E', 'N', 'D']] := by
    by_contra hv
    exact hne (hother v hv)
  have hw : w ∈ [['M', 'O', 'V'], ['A', 'D', 'D'], ['S', 'U', 'B'], ['M', 'U', 'L'],
      ['J', 'U', 'M', 'P'], ['E', 'L', 'S', 'E'], ['I', 'F'], ['E', 'Q'], ['L', 'T'],
      ['G', 'T'], ['L', 'T', 'E', 'Q'], ['G', 'T', 'E', 'Q'], ['P', 'R', 'I', 'N', 'T'],
      ['R', 'E', 'A', 'D'], ['E', 'N', 'D', 'I', 'F'], ['E', 'N', 'D']] := by
    by_contra hw
    exact hne (h.trans (hother w hw))
  simp only [List.mem_cons, List.mem_singleton, List.not_mem_nil, or_false] at hv hw
  rcases hv with rfl | rfl | rfl | rfl | rfl | rfl | rfl | rfl | rfl | rfl | rfl | rfl | rfl |
    rfl | rfl | rfl <;>
  rcases hw with rfl | rfl | rfl | rfl | rfl | rfl | rfl | rfl | rfl | rfl | rfl | rfl | rfl |
    rfl | rfl | rfl <;>
  first
    | exact Or.inl rfl
    | exact Or.inr (by decide)
    | exact absurd h (by decide)

/-- A witness of C15: `FOO` is no mnemonic and gets -1; `JUMP` and `ELSE` share
the opcode 6. -/
theorem opcode_table_witness :
    generate_opcode ['F', 'O', 'O'] = -1 ∧
    (['J', 'U', 'M', 'P'] = ['E', 'L', 'S', 'E'] ∨
      (generate_opcode ['J', 'U', 'M', 'P'] = 6 ∧ generate_opcode ['E', 'L', 'S', 'E'] = 6)) := by
  obtain ⟨_, _, _, _, _, _, _, _, _, _, _, _, _, _, _, _, hother, hsame⟩ := opcode_table
  exact ⟨hother _ (by decide), hsame _ _ (by decide) (by decide)⟩

/-! ## C13, C14: MOV and the binary operations -/

/-- C13, the code at the failing input.  After `DATA x`, the line `MOV AX, x`
(destination a register) is emitted with opcode 2, `OP_MOV_REG_TO_MEM`, and the
line `MOV x, AX` (destination in memory) with opcode 1, `OP_MOV_MEM_TO_REG`; the
parameters are the two addresses and -1. -/
theorem mov_opcodes_swapped :
    (generate fileMov zeroState).emitted = some 2 ∧
    (generate fileMov zeroState).opcodeAt 0 = some OP_MOV_REG_TO_MEM ∧
    (generate fileMov zeroState).param 0 0 = some 0 ∧
    (generate fileMov zeroState).param 0 1 = some 8 ∧
    (generate fileMov zeroState).param 0 2 = some (-1) ∧
    (generate fileMov zeroState).opcodeAt 1 = some OP_MOV_MEM_TO_REG ∧
    (generate fileMov zeroState).param 1 0 = some 8 ∧
    (generate fileMov zeroState).param 1 1 = some 0 ∧
    (generate fileMov zeroState).param 1 2 = some (-1) := by
  decide

/-- C14, the code at the failing input.  After `DATA arr[4]` (address 8) the line
`ADD AX, arr[1], BX` is emitted with opcode 3 and parameters `[0, 8, 1, -1]`,
although `getAddress` gives 9 for the operand `arr[1]` as written: the operand
reaches `getAddress` cut to its first four characters, `arr[`. -/
theorem binary_operand_truncated :
    (generate fileAdd zeroState).emitted = some 1 ∧
    (generate fileAdd zeroState).opcodeAt 0 = some OP_ADD ∧
    (generate fileAdd zeroState).param 0 0 = some 0 ∧
    (generate fileAdd zeroState).param 0 1 = some 8 ∧
    (generate fileAdd zeroState).param 0 2 = some 1 ∧
    (generate fileAdd zeroState).param 0 3 = some (-1) ∧
    (generate fileAdd zeroState).address ['a', 'r', 'r', '[', '1', ']'] = some 9 ∧
    (generate fileAdd zeroState).address ['a', 'r', 'r', '['] = some 8 := by
  decide

/-! ## C17, C19: what `endif_func` touches -/

/-- C17, the code at the failing inputs.  After `IF BX EQ AX` parameter 0 of the
IF holds the address 1 of `BX`; the ENDIF that follows overwrites it with the
instruction number 2.  And in `IF AX EQ BX`, `ELSE`, `IF AX EQ BX`, `ENDIF` the
ENDIF writes 4 into parameter 3 of the JUMP emitted for the ELSE. -/
theorem endif_overwrites_operand :
    (run [lineIfBX] (main_init zeroState)).opcodeAt 0 = some OP_IF ∧
    (run [lineIfBX] (main_init zeroState)).param 0 0 = some 1 ∧
    (run [lineIfBX, lineEndif] (main_init zeroState)).param 0 0 = some 2 ∧
    (run [lineIf, lineElse, lineIf] (main_init zeroState)).opcodeAt 1 = some OP_JUMP ∧
    (run [lineIf, lineElse, lineIf] (main_init zeroState)).param 1 3 = some 0 ∧
    (run [lineIf, lineElse, lineIf, lineEndif] (main_init zeroState)).param 1 3 = some 4 := by
  decide

/-- C19.  In every state with an empty stack (`top = -1`) the function
`endif_func` returns the state as it is: stack, `top`, instruction table and its
index are unchanged; and the loop, which takes the line counter back after the
call, leaves the whole state as it was before the ENDIF line. -/
theorem endif_empty_stack (s : State) (n : Int) (h : s.top = -1) :
    endif_func n s = s ∧
    ∀ raw : CStr, isEndifLine raw = true → processLine raw s = Step.running s := by
  have h1 : endif_func n s = s := by
    unfold endif_func
    rw [if_pos (by omega)]
  refine ⟨h1, fun raw hraw => ?_⟩
  rw [processLine_endif hraw]
  have h2 : endif_func (s.instruction_no + 1) s = s := by
    unfold endif_func
    rw [if_pos (by omega)]
  rw [h2]

/-- A witness of C19: an ENDIF as the first line of the instruction section. -/
theorem endif_empty_stack_witness :
    endif_func 1 (main_init zeroState) = main_init zeroState ∧
    processLine lineEndif (main_init zeroState) = Step.running (main_init zeroState) :=
  ⟨(endif_empty_stack (main_init zeroState) 1 rfl).1,
    (endif_empty_stack (main_init zeroState) 1 rfl).2 lineEndif (by decide)⟩

set_option maxRecDepth 100000 in
/-- C16, the code at the failing input.  After fifty-one label lines the line
`PRINT AX` is the first and only emitted instruction, at table position 0, and
its instruction number is 2: the fifty-first label line took a number. -/
theorem label_overflow_takes_number :
    (run (fiftyOneLabels ++ [linePrint]) (main_init zeroState)).emitted = some 1 ∧
    (run (fiftyOneLabels ++ [linePrint]) (main_init zeroState)).numberAt 0 = some 2 := by
  decide

/-! ## Contiguous instruction numbers -/

/-- A line that emits: the new slot carries the line counter plus one, which
becomes the new line counter, and the other slots are untouched. -/
theorem processLine_emits (raw : CStr) {s a : State}
    (ha : (processLine raw s).state? = some a)
    (hidx : a.intermediate_index = s.intermediate_index + 1) :
    a.instruction_no = s.instruction_no + 1 ∧
    (a.intermediate_table s.intermediate_index).instruc_no = s.instruction_no + 1 ∧
    ∀ k, k ≠ s.intermediate_index → a.intermediate_table k = s.intermediate_table k := by
  cases hl : labelText raw with
  | some name =>
    rw [processLine_label hl] at ha
    simp only [Step.state?, Option.some.injEq] at ha
    subst ha
    rw [(recordLabel_frame name _ s).2.2.1] at hidx
    omega
  | none =>
    obtain ⟨r2, hr⟩ := processLine_effect s hl
    generalize processLine raw s = r at hr ha
    cases hr <;> simp only [Step.state?, Option.some.injEq] at ha <;> try subst ha
    · exact absurd ha (by simp)
    · simp only [] at hidx; omega
    · simp only [] at hidx; omega
    · simp only [] at hidx
      rw [(endif_func_frame _ s).1] at hidx; omega
    · simp only [setSlot] at hidx; omega
    · rename_i e f he hf hop hcap
      refine ⟨rfl, by simpa [setSlot] using he, fun k hk => ?_⟩
      simp only [setSlot]
      exact Function.update_noteq hk _ _
    · rename_i e f he hf hop hkind hcap hroom
      refine ⟨rfl, by simpa [push, setSlot] using he, fun k hk => ?_⟩
      simp only [push, setSlot]
      exact Function.update_noteq hk _ _

/-- Within the label table's capacity, a run in which every line is a label, an
ENDIF or an emitting line numbers the table entries 1, 2, 3, ...: label lines
and ENDIF lines add no entry and take no number. -/
theorem run_numberedFromOne (lines : List CStr) :
    ∀ {s a : State}, numberedFromOne s → (s.intermediate_index : Int) = s.instruction_no →
      everyLineEmits lines s → (run lines s).state? = some a → numberedFromOne a := by
  induction lines with
  | nil =>
    intro s a h _ _ ha
    simp only [run, Step.state?, Option.some.injEq] at ha
    subst ha; exact h
  | cons raw rest ih =>
    intro s a h hc hall ha
    simp only [run] at ha
    simp only [everyLineEmits] at hall
    cases hp : processLine raw s with
    | undefined =>
      rw [hp] at ha
      exact absurd ha (by simp [Step.state?])
    | ended b =>
      rw [hp] at ha
      simp only [Step.state?, Option.some.injEq] at ha
      subst ha
      cases hl : labelText raw with
      | some name => rw [processLine_label hl] at hp; exact absurd hp (by simp)
      | none =>
        obtain ⟨r2, hr⟩ := processLine_effect s hl
        rw [hp] at hr
        cases hr
        exact h
    | running b =>
      rw [hp] at ha hall
      simp only [] at hall ha
      obtain ⟨hkind, hrest⟩ := hall
      have hb : numberedFromOne b ∧ (b.intermediate_index : Int) = b.instruction_no := by
        rcases hkind with ⟨hl, hroom⟩ | he | hi
        · obtain ⟨name, hname⟩ := Option.isSome_iff_exists.mp hl
          rw [processLine_label hname] at hp
          simp only [Step.running.injEq] at hp
          subst hp
          unfold recordLabel
          rw [if_neg (by omega)]
          exact ⟨h, by simp only []; omega⟩
        · rw [processLine_endif he] at hp
          simp only [Step.running.injEq] at hp
          subst hp
          have hf := endif_func_frame (s.instruction_no + 1) s
          refine ⟨fun k hk => ?_, by simp only []; rw [hf.1]; exact hc⟩
          simp only [] at hk ⊢
          rw [hf.2.2.2.2.2.2.1 k]
          exact h k (by rw [hf.1] at hk; exact hk)
        · obtain ⟨h1, h2, h3⟩ := processLine_emits raw (by rw [hp]; rfl) hi
          refine ⟨fun k hk => ?_, by rw [hi, h1]; push_cast; omega⟩
          by_cases hk2 : k = s.intermediate_index
          · rw [hk2, h2]; omega
          · rw [h3 k hk2]
            exact h k (by omega)
      exact ih hb.1 hb.2 hrest ha

/-! ## C18: operands the symbol table does not hold -/

/-- A `PRINT` line runs `print_func`. -/
theorem processLine_print {raw param : CStr}
    (h : instructionOf raw = some (['P', 'R', 'I', 'N', 'T'], param)) (s : State) :
    processLine raw s = Step.ofOption (s.instruction_no + 1)
      (print_func param (s.instruction_no + 1) s) := by
  rw [processLine_instruction h]
  simp [dispatch, generate_opcode]

/-- A `READ` line runs `read_func`. -/
theorem processLine_read {raw param : CStr}
    (h : instructionOf raw = some (['R', 'E', 'A', 'D'], param)) (s : State) :
    processLine raw s = Step.ofOption (s.instruction_no + 1)
      (read_func param (s.instruction_no + 1) s) := by
  rw [processLine_instruction h]
  simp [dispatch, generate_opcode]

/-- Away from the register test.  For every operand whose first two characters
fail the register test, whose array index (if any) is a string of at most nine
digits, and whose name part (not empty, fitting `temp`) names no symbol table
entry, `getAddress` returns -1; and a `PRINT` or `READ` line with that operand
is still emitted (the instruction table having room): the loop goes on, the
table index advances by one, the new slot holds the opcode, the line's
instruction number and the parameters `[-1, -1]`, and the symbol table is as
before. -/
theorem getAddress_not_found (s : State) (v : CStr) (hreg : isRegisterName v = false)
    (_hidx : (indexText v).length ≤ 9 ∧ ∀ c ∈ indexText v, isdigit c = true)
    (hne : namePart v ≠ []) (hlen : (namePart v).length < VARIABLE_LENGTH)
    (hmiss : ∀ i, i < s.symbol_index → (s.symbol_tab i).variable_name ≠ namePart v)
    (hcap : s.intermediate_index < INTERMEDIATE_SLOTS) :
    getAddress s v = some (-1) ∧
    (∀ raw : CStr, instructionOf raw = some (['P', 'R', 'I', 'N', 'T'], v) →
      ∃ s1, processLine raw s = Step.running s1 ∧
        s1.intermediate_index = s.intermediate_index + 1 ∧
        (s1.intermediate_table s.intermediate_index).opcode = OP_PRINT ∧
        (s1.intermediate_table s.intermediate_index).instruc_no = s.instruction_no + 1 ∧
        (s1.intermediate_table s.intermediate_index).parameters 0 = -1 ∧
        (s1.intermediate_table s.intermediate_index).parameters 1 = -1 ∧
        s1.symbol_index = s.symbol_index ∧ s1.symbol_tab = s.symbol_tab) ∧
    (∀ raw : CStr, instructionOf raw = some (['R', 'E', 'A', 'D'], v) →
      ∃ s1, processLine raw s = Step.running s1 ∧
        s1.intermediate_index = s.intermediate_index + 1 ∧
        (s1.intermediate_table s.intermediate_index).opcode = OP_READ ∧
        (s1.intermediate_table s.intermediate_index).instruc_no = s.instruction_no + 1 ∧
        (s1.intermediate_table s.intermediate_index).parameters 0 = -1 ∧
        (s1.intermediate_table s.intermediate_index).parameters 1 = -1 ∧
        s1.symbol_index = s.symbol_index ∧ s1.symbol_tab = s.symbol_tab) := by
  have hget : getAddress s v = some (-1) := by
    rw [getAddress_scan s v hreg hne hlen,
      findFirst_none s.symbol_index 0 (fun i _ hi => by simpa using hmiss i (by omega))]
  refine ⟨hget, fun raw hraw => ?_, fun raw hraw => ?_⟩
  · have hp := processLine_print hraw s
    unfold print_func at hp
    rw [if_neg (by omega), hget] at hp
    refine ⟨_, hp, rfl, ?_, ?_, ?_, ?_, rfl, rfl⟩ <;> simp [setSlot, setParam]
  · have hp := processLine_read hraw s
    unfold read_func at hp
    rw [if_neg (by omega), hget] at hp
    refine ⟨_, hp, rfl, ?_, ?_, ?_, ?_, rfl, rfl⟩ <;> simp [setSlot, setParam]

/-- An instance of `getAddress_not_found`: the operand `zz` in the table `x`, `arr`, `x`, and the lines
`PRINT zz` and `READ zz`. -/
theorem getAddress_not_found_witness :
    getAddress sampleTable ['z', 'z'] = some (-1) ∧
    (∃ s1, processLine linePrintZZ sampleTable = Step.running s1 ∧
        s1.intermediate_index = 0 + 1 ∧
        (s1.intermediate_table 0).opcode = OP_PRINT ∧
        (s1.intermediate_table 0).instruc_no = 0 + 1 ∧
        (s1.intermediate_table 0).parameters 0 = -1 ∧
        (s1.intermediate_table 0).parameters 1 = -1 ∧
        s1.symbol_index = 3 ∧ s1.symbol_tab = sampleTable.symbol_tab) ∧
    (∃ s1, processLine lineReadZZ sampleTable = Step.running s1 ∧
        s1.intermediate_index = 0 + 1 ∧
        (s1.intermediate_table 0).opcode = OP_READ ∧
        (s1.intermediate_table 0).instruc_no = 0 + 1 ∧
        (s1.intermediate_table 0).parameters 0 = -1 ∧
        (s1.intermediate_table 0).parameters 1 = -1 ∧
        s1.symbol_index = 3 ∧ s1.symbol_tab = sampleTable.symbol_tab) :=
  ⟨(getAddress_not_found sampleTable ['z', 'z'] (by decide) (by decide) (by decide)
      (by decide) (by decide) (by decide)).1,
    (getAddress_not_found sampleTable ['z', 'z'] (by decide) (by decide) (by decide)
      (by decide) (by decide) (by decide)).2.1 linePrintZZ (by decide),
    (getAddress_not_found sampleTable ['z', 'z'] (by decide) (by decide) (by decide)
      (by decide) (by decide) (by decide)).2.2 lineReadZZ (by decide)⟩

/-- C18, the code at the failing input.  With no declaration at all, the operands
`AXE` and `GXy`, which are no register names and match no entry of the (empty)
symbol table, resolve to 0 and 6, the addresses of the registers `AX` and `GX`,
not to -1: `PRINT AXE` is emitted with the parameters `[0, -1]` and `READ GXy`
with `[6, -1]`. -/
theorem unknown_name_resolves_as_register :
    (generate fileUndeclared zeroState).symbols = some 0 ∧
    (generate fileUndeclared zeroState).address ['A', 'X', 'E'] = some 0 ∧
    (generate fileUndeclared zeroState).address ['G', 'X', 'y'] = some 6 ∧
    (generate fileUndeclared zeroState).emitted = some 2 ∧
    (generate fileUndeclared zeroState).opcodeAt 0 = some OP_PRINT ∧
    (generate fileUndeclared zeroState).param 0 0 = some 0 ∧
    (generate fileUndeclared zeroState).param 0 1 = some (-1) ∧
    (generate fileUndeclared zeroState).opcodeAt 1 = some OP_READ ∧
    (generate fileUndeclared zeroState).param 1 0 = some 6 ∧
    (generate fileUndeclared zeroState).param 1 1 = some (-1) := by
  decide

/-! ## C20: CONST declarations -/

theorem isdigit_not_space {c : Char} (h : isdigit c = true) : isspace c = false := by
  simp only [isdigit, Bool.and_eq_true, decide_eq_true_eq] at h
  simp only [isspace, Bool.or_eq_false_iff, decide_eq_false_iff_not, Bool.and_eq_false_iff]
  omega

/-- On a string of digits `atoi` is the decimal value. -/
theorem atoi_digits (cs : CStr) (h : ∀ c ∈ cs, isdigit c = true) :
    atoi cs = (decimalValue cs : Int) := by
  have hdrop : cs.dropWhile isspace = cs := by
    cases cs with
    | nil => rfl
    | cons c cs =>
      rw [List.dropWhile_cons, if_neg (by
        rw [isdigit_not_space (h c (List.mem_cons_self _ _))]; simp)]
  have hhead : ∀ x : Char, isdigit x = false → cs.head? ≠ some x := by
    intro x hx hc
    cases cs with
    | nil => simp at hc
    | cons c cs =>
      simp only [List.head?_cons, Option.some.injEq] at hc
      have := h c (List.mem_cons_self _ _)
      rw [hc, hx] at this
      exact absurd this (by simp)
  unfold atoi
  simp only [hdrop]
  rw [if_neg (hhead '-' (by decide)), if_neg (hhead '+' (by decide)), takeWhile_all cs h]
  exact accumulate_digits cs h

/-- C20 (as amended).  For every declaration line that the tokenizer splits into
exactly four tokens, the first being `CONST` (the form `CONST name = value`),
met with room in the symbol table and the memory cursor inside the memory
array: `const_func` writes into the memory cell at the cursor the integer `atoi`
reads from the fourth token, which is its decimal value when the token is a
string of digits; the new symbol entry is named by the first
`VARIABLE_LENGTH - 1` characters of the second token and has size 0. -/
theorem const_declaration (s : State) (line : CStr) (tk : Nat → CStr)
    (htok : tokenizeFrom line [] 0 s.tokens = some (4, tk))
    (hconst : tk 0 = ['C', 'O', 'N', 'S', 'T'])
    (hroom : s.symbol_index < SYMBOL_SLOTS)
    (hmem : 0 ≤ s.memory_index ∧ s.memory_index < MEMORY_SIZE) :
    ∃ s1, processDeclaration line s = some s1 ∧
      s1.memory_array s.memory_index.toNat = atoi (tk 3) ∧
      ((∀ c ∈ tk 3, isdigit c = true) → atoi (tk 3) = (decimalValue (tk 3) : Int)) ∧
      (s1.symbol_tab s.symbol_index).variable_name = (tk 1).take (VARIABLE_LENGTH - 1) ∧
      (s1.symbol_tab s.symbol_index).size = 0 ∧
      s1.symbol_index = s.symbol_index + 1 ∧
      s1.memory_index = s.memory_index + 1 := by
  have hp : processDeclaration line s = const_func tk { s with tokens := tk } := by
    unfold processDeclaration
    rw [htok]
    simp only [hconst]
    rw [if_pos trivial, if_pos (by decide), if_neg (by decide)]
  unfold const_func at hp
  rw [if_neg (by simpa using hroom), if_neg (by simpa using hmem)] at hp
  refine ⟨_, hp, ?_, atoi_digits (tk 3), ?_, ?_, rfl, rfl⟩
  · simp only [Function.update_same]
  · simp only [Function.update_same]
  · simp only [Function.update_same]

/-- A witness of C20 as amended: the line `CONST a = 7` as the first declaration. -/
theorem const_declaration_witness :
    ∃ s1, processDeclaration lineConstSeven (main_init zeroState) = some s1 ∧
      s1.memory_array 7 = atoi ['7'] ∧
      ((∀ c ∈ ['7'], isdigit c = true) → atoi ['7'] = (decimalValue ['7'] : Int)) ∧
      (s1.symbol_tab 0).variable_name = ['a'] ∧
      (s1.symbol_tab 0).size = 0 ∧
      s1.symbol_index = 0 + 1 ∧
      s1.memory_index = 7 + 1 :=
  const_declaration (main_init zeroState) lineConstSeven
    (Function.update (Function.update (Function.update (Function.update (fun _ => [])
      0 ['C', 'O', 'N', 'S', 'T']) 1 ['a']) 2 ['=']) 3 ['7'])
    rfl rfl (by decide) (by decide)

/-- C20, counterexample.  The line `CONST b 5` has the three tokens `CONST`, `b`,
`5`; after `CONST a = 7` it makes `const_func` write 7, the fourth token of the
line before, into memory cell 8, and as the first line it writes 0 into cell 7.
And the line `CONST total 5` makes an entry named `tota`. -/
theorem const_three_tokens :
    declaredEntry (declarations [lineConstSeven, lineConstThree] (main_init zeroState)) 1 8
      = some (['b'], 0, 7) ∧
    declaredEntry (declarations [lineConstThree] (main_init zeroState)) 0 7
      = some (['b'], 0, 0) ∧
    declaredEntry (declarations [lineConstTotal] (main_init zeroState)) 0 7
      = some (['t', 'o', 't', 'a'], 0, 0) := by
  decide

/-! ## C21: DATA declarations -/

theorem declaredSize_bare (token : CStr) (h : '[' ∉ token) : declaredSize token = 0 := by
  unfold declaredSize
  have hall : ∀ c ∈ token, (fun c : Char => decide (c ≠ '[')) c = true := by
    intro c hc
    simp only [ne_eq, decide_not, Bool.not_eq_true', decide_eq_false_iff_not]
    intro hcb
    exact h (hcb ▸ hc)
  have hdrop : token.dropWhile (fun c => decide (c ≠ '[')) = [] := by
    rw [List.dropWhile_eq_nil_iff]
    exact hall
  simp only [hdrop]
  rfl

theorem declaredSize_digits (name digits : CStr) (hname : '[' ∉ name)
    (hd : ∀ c ∈ digits, isdigit c = true) :
    declaredSize (name ++ '[' :: (digits ++ [']'])) = (decimalValue digits : Int) := by
  unfold declaredSize
  have hall : ∀ c ∈ name, (fun c : Char => decide (c ≠ '[')) c = true := by
    intro c hc
    simp only [ne_eq, decide_not, Bool.not_eq_true', decide_eq_false_iff_not]
    intro hcb
    exact hname (hcb ▸ hc)
  have hdig : ∀ c ∈ digits, (fun c : Char => decide (c ≠ ']')) c = true := by
    intro c hc
    have h1 := hd c hc
    simp only [isdigit, Bool.and_eq_true, decide_eq_true_eq] at h1
    simp only [ne_eq, decide_not, Bool.not_eq_true', decide_eq_false_iff_not]
    intro hcb
    rw [hcb] at h1
    exact absurd h1.2 (by decide)
  rw [dropWhile_stop name '[' _ hall (by simp)]
  simp only [List.head?_cons, if_true, List.drop_succ_cons, List.drop_zero]
  rw [takeWhile_stop digits ']' [] hdig (by simp)]
  exact accumulate_digits digits hd

/-- C21.  In every state with a free symbol entry, for every token row whose name
part (the text before the first bracket) fits the local buffer of `data_func`:
`data_func` appends one entry and leaves the others as they are; the entry is
named by the text before the first bracket; its size is at least 1; it is 1 for a
token without a bracket; and for a token `name[N]`, `N` a string of decimal
digits, it is the value of `N` when that is positive and 1 when it is 0. -/
theorem data_declaration (s : State) (tk : Nat → CStr)
    (hroom : s.symbol_index < SYMBOL_SLOTS)
    (hfit : ((tk 1).takeWhile (fun c => c ≠ '[')).length < VARIABLE_LENGTH) :
    ∃ s1, data_func tk s = some s1 ∧
      s1.symbol_index = s.symbol_index + 1 ∧
      (∀ i, i ≠ s.symbol_index → s1.symbol_tab i = s.symbol_tab i) ∧
      (s1.symbol_tab s.symbol_index).variable_name = (tk 1).takeWhile (fun c => c ≠ '[') ∧
      1 ≤ (s1.symbol_tab s.symbol_index).size ∧
      ('[' ∉ tk 1 → (s1.symbol_tab s.symbol_index).size = 1) ∧
      (∀ name digits : CStr, tk 1 = name ++ '[' :: (digits ++ [']']) → '[' ∉ name →
        (∀ c ∈ digits, isdigit c = true) →
        (0 < decimalValue digits →
          (s1.symbol_tab s.symbol_index).size = (decimalValue digits : Int)) ∧
        (decimalValue digits = 0 → (s1.symbol_tab s.symbol_index).size = 1)) := by
  have hd : data_func tk s = some { s with
      symbol_tab := Function.update s.symbol_tab s.symbol_index
        { variable_name := ((tk 1).takeWhile (fun c => c ≠ '[')).take (VARIABLE_LENGTH - 1)
          address := nextAddress s
          size := if declaredSize (tk 1) > 0 then declaredSize (tk 1) else 1 }
      symbol_index := s.symbol_index + 1
      memory_index := nextAddress s +
        (if declaredSize (tk 1) > 0 then declaredSize (tk 1) else 1) } := by
    unfold data_func
    simp only []
    rw [if_neg (by simpa using hroom), if_neg (by simpa using hfit)]
  refine ⟨_, hd, rfl, ?_, ?_, ?_, ?_, ?_⟩
  · intro i hi
    exact Function.update_noteq hi _ _
  · simp only [Function.update_same]
    exact List.take_of_length_le (by omega)
  · simp only [Function.update_same]
    split <;> omega
  · intro hb
    simp only [Function.update_same, declaredSize_bare _ hb]
    rfl
  · intro name digits htk hname hdig
    simp only [Function.update_same, htk, declaredSize_digits name digits hname hdig]
    constructor
    · intro hpos
      rw [if_pos (by exact_mod_cast hpos)]
    · intro hzero
      rw [hzero]
      rfl

/-- A witness of C21: `DATA y[3]` as the first declaration gets the name `y` and
size 3, `DATA x` gets size 1 and `DATA y[0]` gets size 1. -/
theorem data_declaration_witness :
    (∃ s1, data_func dataY (main_init zeroState) = some s1 ∧
      (s1.symbol_tab 0).variable_name = ['y'] ∧ (s1.symbol_tab 0).size = 3) ∧
    (∃ s1, data_func dataX (main_init zeroState) = some s1 ∧
      (s1.symbol_tab 0).variable_name = ['x'] ∧ (s1.symbol_tab 0).size = 1) ∧
    (∃ s1, data_func dataZero (main_init zeroState) = some s1 ∧
      (s1.symbol_tab 0).variable_name = ['y'] ∧ (s1.symbol_tab 0).size = 1) := by
  refine ⟨?_, ?_, ?_⟩
  · obtain ⟨s1, h1, _, _, h4, _, _, h7⟩ :=
      data_declaration (main_init zeroState) dataY (by decide) (by decide)
    exact ⟨s1, h1, h4, (h7 ['y'] ['3'] rfl (by decide) (by decide)).1 (by decide)⟩
  · obtain ⟨s1, h1, _, _, h4, _, h6, _⟩ :=
      data_declaration (main_init zeroState) dataX (by decide) (by decide)
    exact ⟨s1, h1, h4, h6 (by decide)⟩
  · obtain ⟨s1, h1, _, _, h4, _, _, h7⟩ :=
      data_declaration (main_init zeroState) dataZero (by decide) (by decide)
    exact ⟨s1, h1, h4, (h7 ['y'] ['0'] rfl (by decide) (by decide)).2 (by decide)⟩

/-! ## C22: generation stops at `END` -/

theorem processLine_end {raw : CStr} (h : isEndLine raw = true) (s : State) :
    processLine raw s = Step.ended { s with instruction_no := s.instruction_no + 1 } := by
  unfold isEndLine at h
  cases hi : instructionOf raw with
  | none => rw [hi] at h; simp at h
  | some p =>
    obtain ⟨instruction, param⟩ := p
    rw [hi] at h
    simp only [Option.map_some', decide_eq_true_eq, Option.some.injEq] at h
    subst h
    rw [processLine_instruction hi]
    simp [dispatch, generate_opcode]

theorem run_append_running (pre : List CStr) :
    ∀ (s a : State) (rest : List CStr), run pre s = Step.running a →
      run (pre ++ rest) s = run rest a := by
  induction pre with
  | nil =>
    intro s a rest h
    simp only [run, Step.running.injEq] at h
    subst h
    rfl
  | cons raw pre ih =>
    intro s a rest h
    simp only [List.cons_append, run] at h ⊢
    cases hp : processLine raw s with
    | running s1 =>
      rw [hp] at h
      simp only [] at h ⊢
      exact ih s1 a rest h
    | ended s1 => rw [hp] at h; simp at h
    | undefined => rw [hp] at h; simp at h

/-- C22.  For every state, every `END` line and all line sequences `P` and `Q`: the
instruction loop on `P ++ [END] ++ Q` leaves what it leaves on `P ++ [END]`, the
lines after the `END` are not read; and when `P` is processed to its end, the
loop on `P ++ [END] ++ Q` ends at the `END` line in the state `P` left, the
instruction table, the label table and the stack being those after `P`.  And the
file `START:`, `END` leaves zero emitted instructions, zero labels and
`top = -1`, whatever the arrays held at the start. -/
theorem end_stops_generation (u s : State) (e : CStr) (he : isEndLine e = true)
    (P Q : List CStr) :
    run (P ++ e :: Q) s = run (P ++ [e]) s ∧
    (∀ a, run P s = Step.running a →
      run (P ++ e :: Q) s = Step.ended { a with instruction_no := a.instruction_no + 1 }) ∧
    (generate [startLine, lineEnd] u).cursors = some (0, 0, -1) := by
  have hend : ∀ (t : State) (R : List CStr),
      run (e :: R) t = Step.ended { t with instruction_no := t.instruction_no + 1 } := by
    intro t R
    simp only [run, processLine_end he t]
  refine ⟨?_, ?_, rfl⟩
  · induction P generalizing s with
    | nil => simp only [List.nil_append, hend]
    | cons raw P ih =>
      simp only [List.cons_append, run]
      cases processLine raw s with
      | running s1 => exact ih s1
      | ended s1 => rfl
      | undefined => rfl
  · intro a ha
    rw [run_append_running P s a _ ha, hend]

/-- A witness of C22: the instruction loop on `END`, `PRINT AX` stops at the `END`,
and the file `START:`, `END`, `PRINT AX` leaves nothing emitted. -/
theorem end_stops_generation_witness :
    (run ([] ++ lineEnd :: [linePrint]) (main_init zeroState)
        = run ([] ++ [lineEnd]) (main_init zeroState) ∧
      (∀ a, run [] (main_init zeroState) = Step.running a →
        run ([] ++ lineEnd :: [linePrint]) (main_init zeroState)
          = Step.ended { a with instruction_no := a.instruction_no + 1 }) ∧
      (generate [startLine, lineEnd] zeroState).cursors = some (0, 0, -1)) ∧
    (generate [startLine, lineEnd, linePrint] zeroState).cursors = some (0, 0, -1) :=
  ⟨end_stops_generation zeroState (main_init zeroState) lineEnd (by decide) [] [linePrint],
    by decide⟩

/-! ## C23: generate, then execute -/

set_option maxHeartbeats 1000000 in
/-- C23 (as amended).  For the file `DATA x`, `CONST z = 0`, `START:`, `READ x`,
`IF x GT z`, `PRINT x`, `ELSE`, `PRINT z`, `ENDIF`, `END`, whatever the arrays
held at the start: generation emits five instructions, the IF comparing the
cells 8 (`x`) and 9 (`z`, which holds 0), and the execution of the table on the
memory the declarations left, with the input 5 and five steps or more, halts
having printed 5. -/
theorem round_trip_declared_constant (u : State) (extra : Nat) :
    (generate fileRoundTripConst u).emitted = some 5 ∧
    (generate fileRoundTripConst u).param 1 0 = some 8 ∧
    (generate fileRoundTripConst u).param 1 1 = some 9 ∧
    (generate fileRoundTripConst u).state?.map (fun s => s.memory_array 9) = some 0 ∧
    (compileAndExecute fileRoundTripConst u [5] (extra + 5)).printed = some [5] :=
  ⟨rfl, rfl, rfl, rfl, rfl⟩

/-- C23, counterexample.  For the file `DATA x`, `START:`, `READ x`, `IF x GT 0`,
`PRINT x`, `ELSE`, `PRINT 0`, `ENDIF`, `END` generation resolves the operand `0`
as an undeclared name: the IF compares the cell 8 with the address -1 and the
second PRINT prints the address -1; the execution with the input 5 reads outside
the memory and prints nothing defined.  Without the line `START:` nothing is
emitted and the execution prints nothing. -/
theorem round_trip_literal_operand :
    (generate fileRoundTrip zeroState).emitted = some 5 ∧
    (generate fileRoundTrip zeroState).opcodeAt 1 = some OP_IF ∧
    (generate fileRoundTrip zeroState).param 1 0 = some 8 ∧
    (generate fileRoundTrip zeroState).param 1 1 = some (-1) ∧
    (generate fileRoundTrip zeroState).opcodeAt 4 = some OP_PRINT ∧
    (generate fileRoundTrip zeroState).param 4 0 = some (-1) ∧
    (compileAndExecute fileRoundTrip zeroState [5] 100).isUndefined = true ∧
    (compileAndExecute fileRoundTrip zeroState [5] 100).printed ≠ some [5] ∧
    (generate fileRoundTripBare zeroState).emitted = some 0 ∧
    (compileAndExecute fileRoundTripBare zeroState [5] 100).printed = some [] := by
  decide

/-! ## C24: names that begin like a register -/

/-- C24, the code at the failing input.  After `DATA EXP` the symbol `EXP` has
address 8, yet `getAddress` gives 4, the address of the register `EX`, for the
operand `EXP`: `PRINT EXP` is emitted with parameter 4, and `MOV EXP, AX` takes
the register branch of `mov_func` (opcode `OP_MOV_REG_TO_MEM`, parameters
`[4, 0, -1]`).  In every state, every operand whose first two characters are
`E` and `X` resolves to 4 without a look at the symbol table. -/
theorem register_prefix_shadows_symbol :
    (generate fileExp zeroState).symbolAt 0 = some (['E', 'X', 'P'], 8, 1) ∧
    (generate fileExp zeroState).address ['E', 'X', 'P'] = some 4 ∧
    (generate fileExp zeroState).emitted = some 2 ∧
    (generate fileExp zeroState).opcodeAt 0 = some OP_PRINT ∧
    (generate fileExp zeroState).param 0 0 = some 4 ∧
    (generate fileExp zeroState).opcodeAt 1 = some OP_MOV_REG_TO_MEM ∧
    (generate fileExp zeroState).param 1 0 = some 4 ∧
    (generate fileExp zeroState).param 1 1 = some 0 ∧
    (generate fileExp zeroState).param 1 2 = some (-1) ∧
    (∀ (s : State) (rest : CStr), getAddress s ('E' :: 'X' :: rest) = some 4) := by
  refine ⟨by decide, by decide, by decide, by decide, by decide, by decide, by decide,
    by decide, by decide, fun s rest => ?_⟩
  unfold getAddress
  rw [if_pos (by simp [isRegisterName])]
  rfl

/-! ## C25: the address ranges of the symbol table -/

/-- The entry `const_func` or `data_func` adds is named by the first
`VARIABLE_LENGTH - 1` characters of the declared name. -/
theorem declare_name {d : Declaration} {s a : State} (h : declare d s = some a) :
    (a.symbol_tab s.symbol_index).variable_name = d.name.take (VARIABLE_LENGTH - 1) := by
  cases d with
  | CONST tokens =>
    simp only [declare, const_func] at h
    split at h
    · exact absurd h (by simp)
    · split at h
      · exact absurd h (by simp)
      · simp only [Option.some.injEq] at h
        subst h
        simp [Declaration.name]
  | DATA tokens =>
    simp only [declare, data_func] at h
    split at h
    · exact absurd h (by simp)
    · split at h
      · exact absurd h (by simp)
      · simp only [Option.some.injEq] at h
        subst h
        simp [Declaration.name]

/-- Later declarations leave the entries of earlier ones as they are. -/
theorem declareAll_keeps (ds : List Declaration) :
    ∀ {s a : State}, declareAll ds s = some a →
      ∀ i, i < s.symbol_index → a.symbol_tab i = s.symbol_tab i := by
  induction ds with
  | nil =>
    intro s a h i _
    simp only [declareAll, Option.some.injEq] at h
    subst h; rfl
  | cons d ds ih =>
    intro s a h i hi
    simp only [declareAll] at h
    cases hd : declare d s with
    | none => rw [hd] at h; exact absurd h (by simp)
    | some s1 =>
      rw [hd] at h
      obtain ⟨h1, h2, _⟩ := declare_symbol hd
      rw [ih h i (by omega), h2 i hi]

/-- The entry of the declaration at position `i` is named by the first
`VARIABLE_LENGTH - 1` characters of its name. -/
theorem declareAll_names (ds : List Declaration) :
    ∀ {s a : State}, declareAll ds s = some a → ∀ (i : Nat) (d : Declaration),
      ds[i]? = some d →
      (a.symbol_tab (s.symbol_index + i)).variable_name = d.name.take (VARIABLE_LENGTH - 1) := by
  induction ds with
  | nil => intro s a _ i d hd; simp at hd
  | cons d0 ds ih =>
    intro s a h i d hd
    simp only [declareAll] at h
    cases hd0 : declare d0 s with
    | none => rw [hd0] at h; exact absurd h (by simp)
    | some s1 =>
      rw [hd0] at h
      obtain ⟨h1, _⟩ := declare_symbol hd0
      cases i with
      | zero =>
        simp only [List.getElem?_cons_zero, Option.some.injEq] at hd
        subst hd
        rw [Nat.add_zero, declareAll_keeps ds h s.symbol_index (by omega)]
        exact declare_name hd0
      | succ i =>
        simp only [List.getElem?_cons_succ] at hd
        have := ih h i d hd
        rw [h1] at this
        rw [← this]
        congr 2
        omega

/-- C27 (as amended).  For every symbol table built by calls of `const_func` and
`data_func` from an empty table, and two declarations at positions `i < j` whose
names agree on their first `VARIABLE_LENGTH - 1` characters: both entries carry
the same stored name, those first four characters, and their addresses differ;
and `getAddress` on the second name cut to four characters (as `mov_func` and
`binaryOperations_func` pass it), a bare name that fails the register test,
returns the address of the first entry of the table that carries the stored
name, an entry at or before `i` and never the entry `j`; it is the entry `i`
when no earlier declaration agrees with the two; the same holds of the second
name itself when that has at most four characters. -/
theorem names_on_four_characters (ds : List Declaration) (s0 s : State)
    (h0 : s0.symbol_index = 0) (hs : declareAll ds s0 = some s)
    (i j : Nat) (d1 d2 : Declaration) (hij : i < j)
    (h1 : ds[i]? = some d1) (h2 : ds[j]? = some d2)
    (hagree : d1.name.take (VARIABLE_LENGTH - 1) = d2.name.take (VARIABLE_LENGTH - 1)) :
    j < s.symbol_index ∧
    (s.symbol_tab i).variable_name = d1.name.take (VARIABLE_LENGTH - 1) ∧
    (s.symbol_tab j).variable_name = (s.symbol_tab i).variable_name ∧
    (s.symbol_tab i).address ≠ (s.symbol_tab j).address ∧
    (isRegisterName (d2.name.take (VARIABLE_LENGTH - 1)) = false →
      d2.name.take (VARIABLE_LENGTH - 1) ≠ [] →
      '[' ∉ d2.name.take (VARIABLE_LENGTH - 1) → '*' ∉ d2.name.take (VARIABLE_LENGTH - 1) →
      ∃ m, m ≤ i ∧
        (s.symbol_tab m).variable_name = d2.name.take (VARIABLE_LENGTH - 1) ∧
        (∀ k, k < m →
          (s.symbol_tab k).variable_name ≠ d2.name.take (VARIABLE_LENGTH - 1)) ∧
        getAddress s (d2.name.take (VARIABLE_LENGTH - 1)) = some (s.symbol_tab m).address ∧
        (s.symbol_tab m).address ≠ (s.symbol_tab j).address ∧
        (d2.name.length ≤ VARIABLE_LENGTH - 1 →
          getAddress s d2.name = some (s.symbol_tab m).address) ∧
        ((∀ (k : Nat) (d : Declaration), k < i → ds[k]? = some d →
            d.name.take (VARIABLE_LENGTH - 1) ≠ d1.name.take (VARIABLE_LENGTH - 1)) →
          m = i)) := by
  have hlaw0 : addressLaw s0 :=
    ⟨fun h => by omega, fun i hi => by omega, fun i hi => by omega⟩
  obtain ⟨hlaw, hlen⟩ := addressLaw_declareAll ds hlaw0 hs
  have hjlen : j < ds.length := by
    by_contra hge
    rw [List.getElem?_eq_none (by omega)] at h2
    exact absurd h2 (by simp)
  have hj : j < s.symbol_index := by omega
  have hname : ∀ (k : Nat) (d : Declaration), ds[k]? = some d →
      (s.symbol_tab k).variable_name = d.name.take (VARIABLE_LENGTH - 1) := by
    intro k d hk
    have := declareAll_names ds hs k d hk
    rw [h0, Nat.zero_add] at this
    exact this
  have hni := hname i d1 h1
  have hnj := hname j d2 h2
  refine ⟨hj, hni, by rw [hnj, hni, hagree], ?_, ?_⟩
  · have := addressLaw_increasing hlaw j i hij hj
    omega
  · intro hreg hne hb hstar
    have hpart : namePart (d2.name.take (VARIABLE_LENGTH - 1))
        = d2.name.take (VARIABLE_LENGTH - 1) := by
      unfold namePart
      rw [if_neg hb]
      exact takeWhile_all _ (fun c hc => by
        simp only [ne_eq, decide_not, Bool.not_eq_true', decide_eq_false_iff_not]
        intro h; exact hstar (h ▸ hc))
    obtain ⟨m, hm, hmn, hmfirst, hfind⟩ :=
      findFirst_name s (d2.name.take (VARIABLE_LENGTH - 1)) i (by omega) (by rw [hni, hagree])
    have hres : getAddress s (d2.name.take (VARIABLE_LENGTH - 1))
        = some (s.symbol_tab m).address := by
      rw [getAddress_scan s _ hreg (by rw [hpart]; exact hne)
        (by rw [hpart]; exact lt_of_le_of_lt (List.length_take_le _ _) (by decide)),
        hpart, hfind]
      simp only [hb, if_false]
    refine ⟨m, hm, hmn, hmfirst, hres, ?_, fun hshort => ?_, fun hfirst => ?_⟩
    · have := addressLaw_increasing hlaw j m (by omega) hj
      omega
    · rw [List.take_of_length_le hshort] at hres
      exact hres
    · by_contra hne2
      have hmlen : m < ds.length := by omega
      have hget : ds[m]? = some ds[m] := List.getElem?_eq_getElem hmlen
      refine hfirst m ds[m] (by omega) hget ?_
      rw [← hname m ds[m] hget, hmn, hagree]

/-- A witness of C27 as amended: after `CONST abcde = 1`, `CONST abcdf = 2`,
`CONST abcd = 3` the second and third entries are both named `abcd`, and
`getAddress` on `abcd` returns the address of an entry at or before the second
and not that of the third; the file `CONST abcde = 1`, `CONST abcdf = 2`,
`START:`, `MOV AX, abcdf` emits the source address 8. -/
theorem names_on_four_characters_witness :
    (2 < threeLongNames.symbol_index ∧
      (threeLongNames.symbol_tab 1).variable_name = ['a', 'b', 'c', 'd'] ∧
      (threeLongNames.symbol_tab 2).variable_name
        = (threeLongNames.symbol_tab 1).variable_name ∧
      (threeLongNames.symbol_tab 1).address ≠ (threeLongNames.symbol_tab 2).address ∧
      ∃ m, m ≤ 1 ∧
        getAddress threeLongNames ['a', 'b', 'c', 'd']
          = some (threeLongNames.symbol_tab m).address ∧
        (threeLongNames.symbol_tab m).address ≠ (threeLongNames.symbol_tab 2).address ∧
        getAddress threeLongNames (Declaration.CONST constFour).name
          = some (threeLongNames.symbol_tab m).address) ∧
    (generate fileLongNames zeroState).symbolAt 0 = some (['a', 'b', 'c', 'd'], 8, 0) ∧
    (generate fileLongNames zeroState).symbolAt 1 = some (['a', 'b', 'c', 'd'], 9, 0) ∧
    (generate fileLongNames zeroState).param 0 1 = some 8 := by
  obtain ⟨h1, h2, h3, h4, h5⟩ := names_on_four_characters threeDeclarations
    (main_init zeroState) threeLongNames rfl rfl 1 2 (Declaration.CONST constLonger)
    (Declaration.CONST constFour) (by decide) rfl rfl rfl
  obtain ⟨m, hm, _, _, hres, hne, hfull, _⟩ :=
    h5 (by decide) (by decide) (by decide) (by decide)
  exact ⟨⟨h1, h2, h3, h4, m, hm, hres, hne, hfull (by decide)⟩, by decide, by decide,
    by decide⟩

/-- C27, counterexample.  After `CONST abcde = 1`, `CONST abcdf = 2`,
`CONST abcd = 3` the entries of the second and the third declaration, whose
names differ and agree on four characters, are both named `abcd`, at the
addresses 9 and 10, and `getAddress` on the name `abcd` of the third returns 8,
not the address 9 of the second.  After `CONST ab*cd = 1`, `CONST ab*c = 2` both
entries are named `ab*c`, at 8 and 9, and `getAddress` on the name `ab*c` of the
second looks up `ab` and returns -1, not 8. -/
theorem pair_resolves_to_earlier_entry :
    (threeLongNames.symbol_tab 1).variable_name = ['a', 'b', 'c', 'd'] ∧
    (threeLongNames.symbol_tab 2).variable_name = ['a', 'b', 'c', 'd'] ∧
    (threeLongNames.symbol_tab 1).address = 9 ∧
    (threeLongNames.symbol_tab 2).address = 10 ∧
    getAddress threeLongNames ['a', 'b', 'c', 'd'] = some 8 ∧
    (twoStarNames.symbol_tab 0).variable_name = ['a', 'b', '*', 'c'] ∧
    (twoStarNames.symbol_tab 1).variable_name = ['a', 'b', '*', 'c'] ∧
    (twoStarNames.symbol_tab 0).address = 8 ∧
    (twoStarNames.symbol_tab 1).address = 9 ∧
    getAddress twoStarNames ['a', 'b', '*', 'c'] = some (-1) := by
  decide

end AsmCompiler
